import Mathlib

set_option autoImplicit false

/-!
Verification of the `snippet` template-expansion tool (bytebutcher/snippet).

The Python sources are shallowly embedded: Python `str` values become `Str`
(lists of characters), Python dictionaries become association lists, fallible
code returns `Except Str`.  Every definition is translated from the final
`snippet` implementation (`snippet/snippet.py` and the identical copies in
`src/snippet/parsers.py`, `snippet/logger.py`); doc comments name the
function being modelled.
-/

namespace Snippet

/-- Python `str` is modelled as a list of characters. -/
abbrev Str := List Char

/-- The sentinel character `chr(14)` used by `EscapedBracketCodec`. -/
def ch14 : Char := Char.ofNat 14

/-- The sentinel character `chr(15)` used by `EscapedBracketCodec`. -/
def ch15 : Char := Char.ofNat 15

/-- The backslash character. -/
def bsl : Char := Char.ofNat 92

/-- Model of Python `s.replace(a + b, r)` for a two-character pattern `a + b`
and a single replacement character `r`: one left-to-right pass replacing
non-overlapping occurrences. -/
def replaceAll2 (a b r : Char) : Str → Str
  | [] => []
  | [c] => [c]
  | c1 :: c2 :: rest =>
    if c1 = a ∧ c2 = b then r :: replaceAll2 a b r rest
    else c1 :: replaceAll2 a b r (c2 :: rest)

/-- Model of Python `s.replace(a, r)` for a single-character pattern `a`
and a replacement string `r`. -/
def replaceCh (a : Char) (r : Str) : Str → Str
  | [] => []
  | c :: rest => (if c = a then r else [c]) ++ replaceCh a r rest

namespace EscapedBracketCodec

/-- `EscapedBracketCodec.encode`:
`str.replace('\' + opener, chr(14)).replace('\' + closer, chr(15))`. -/
def encode (s : Str) (opener closer : Char) : Str :=
  replaceAll2 bsl closer ch15 (replaceAll2 bsl opener ch14 s)

/-- `EscapedBracketCodec.decode`:
`str.replace(chr(14), '\' + opener).replace(chr(15), '\' + closer)`. -/
def decode (s : Str) (opener closer : Char) : Str :=
  replaceCh ch15 [bsl, closer] (replaceCh ch14 [bsl, opener] s)

end EscapedBracketCodec

/-! ### Lemmas about the two replacement primitives -/

theorem mem_replaceAll2 (a b r x : Char) :
    ∀ s : Str, x ∈ replaceAll2 a b r s → x ∈ s ∨ x = r
  | [], h => by simp [replaceAll2] at h
  | [c], h => by
    simp only [replaceAll2] at h
    exact Or.inl h
  | c1 :: c2 :: rest, h => by
    by_cases hc : c1 = a ∧ c2 = b
    · simp only [replaceAll2, if_pos hc] at h
      rcases List.mem_cons.1 h with h | h
      · exact Or.inr h
      · rcases mem_replaceAll2 a b r x rest h with h1 | h1
        · exact Or.inl (List.mem_cons_of_mem _ (List.mem_cons_of_mem _ h1))
        · exact Or.inr h1
    · simp only [replaceAll2, if_neg hc] at h
      rcases List.mem_cons.1 h with h | h
      · exact Or.inl (by simp [h])
      · rcases mem_replaceAll2 a b r x (c2 :: rest) h with h1 | h1
        · exact Or.inl (List.mem_cons_of_mem _ h1)
        · exact Or.inr h1

theorem length_add_count_replaceAll2 (a b r : Char) (ha : a ≠ r) (hb : b ≠ r) :
    ∀ s : Str,
      (replaceAll2 a b r s).length + (replaceAll2 a b r s).count r
        = s.length + s.count r
  | [] => rfl
  | [c] => by simp [replaceAll2]
  | c1 :: c2 :: rest => by
    have ihr := length_add_count_replaceAll2 a b r ha hb rest
    have ih2 := length_add_count_replaceAll2 a b r ha hb (c2 :: rest)
    by_cases hc : c1 = a ∧ c2 = b
    · rw [hc.1, hc.2]
      simp only [replaceAll2]
      simp only [and_self, if_true]
      rw [List.count_cons_self, List.count_cons_of_ne (Ne.symm ha),
        List.count_cons_of_ne (Ne.symm hb)]
      simp only [List.length_cons]
      omega
    · simp only [replaceAll2, if_neg hc, List.length_cons,
        List.count_cons] at ih2 ⊢
      omega

theorem count_replaceAll2_other (a b r x : Char) (hxa : x ≠ a) (hxb : x ≠ b)
    (hxr : x ≠ r) :
    ∀ s : Str, (replaceAll2 a b r s).count x = s.count x
  | [] => rfl
  | [c] => by simp [replaceAll2]
  | c1 :: c2 :: rest => by
    have ihr := count_replaceAll2_other a b r x hxa hxb hxr rest
    have ih2 := count_replaceAll2_other a b r x hxa hxb hxr (c2 :: rest)
    by_cases hc : c1 = a ∧ c2 = b
    · rw [hc.1, hc.2]
      simp only [replaceAll2]
      simp only [and_self, if_true]
      rw [List.count_cons_of_ne hxr, List.count_cons_of_ne hxa,
        List.count_cons_of_ne hxb, ihr]
    · simp only [replaceAll2, if_neg hc, List.count_cons] at ih2 ⊢
      omega

theorem length_replaceCh_pair (a y z : Char) :
    ∀ s : Str, (replaceCh a [y, z] s).length = s.length + s.count a
  | [] => rfl
  | c :: rest => by
    have ih := length_replaceCh_pair a y z rest
    by_cases hc : c = a
    · simp [replaceCh, hc, ih, List.count_cons]
      omega
    · simp [replaceCh, if_neg hc, ih, List.count_cons, hc]
      omega

theorem count_replaceCh_pair_other (a y z x : Char) (hxa : x ≠ a) (hxy : x ≠ y)
    (hxz : x ≠ z) :
    ∀ s : Str, (replaceCh a [y, z] s).count x = s.count x
  | [] => rfl
  | c :: rest => by
    have ih := count_replaceCh_pair_other a y z x hxa hxy hxz rest
    by_cases hc : c = a
    · simp [replaceCh, hc, List.count_cons, ih, Ne.symm hxy, Ne.symm hxz,
        Ne.symm hxa]
    · simp [replaceCh, if_neg hc, List.count_cons, ih]

/-- Decoding the 14-sentinel undoes encoding of the escaped opener, on strings
that did not contain the sentinel. -/
theorem replaceCh14_replaceAll2 (op : Char) :
    ∀ s : Str, ch14 ∉ s →
      replaceCh ch14 [bsl, op] (replaceAll2 bsl op ch14 s) = s
  | [], _ => rfl
  | [c], h => by
    have hc : c ≠ ch14 := Ne.symm (by simpa using h)
    simp [replaceAll2, replaceCh, hc]
  | c1 :: c2 :: rest, h => by
    have h' : ch14 ≠ c1 ∧ (ch14 ≠ c2 ∧ ch14 ∉ rest) := by
      simpa [not_or] using h
    have h1 : c1 ≠ ch14 := Ne.symm h'.1
    have hrest : ch14 ∉ rest := h'.2.2
    have hrest2 : ch14 ∉ c2 :: rest := by
      simp [not_or, h'.2.1, h'.2.2]
    by_cases hc : c1 = bsl ∧ c2 = op
    · simp only [replaceAll2, if_pos hc]
      rw [hc.1, hc.2]
      simp [replaceCh, replaceCh14_replaceAll2 op rest hrest]
    · simp only [replaceAll2, if_neg hc]
      simp [replaceCh, h1, replaceCh14_replaceAll2 op (c2 :: rest) hrest2]

/-- The closer pass (encode then decode of the 15-sentinel) commutes with the
pending 14-sentinel decode, on strings without the 15-sentinel. -/
theorem replaceCh15_pass (op cl : Char) (hcl : cl ≠ ch14) (hop : op ≠ ch15) :
    ∀ t : Str, ch15 ∉ t →
      replaceCh ch15 [bsl, cl]
          (replaceCh ch14 [bsl, op] (replaceAll2 bsl cl ch15 t))
        = replaceCh ch14 [bsl, op] t
  | [], _ => rfl
  | [c], h => by
    have hc : c ≠ ch15 := Ne.symm (by simpa using h)
    by_cases h14 : c = ch14
    · simp [replaceAll2, replaceCh, h14, hop, show bsl ≠ ch15 by decide,
        show ch14 ≠ ch15 by decide]
    · simp [replaceAll2, replaceCh, hc, h14]
  | c1 :: c2 :: rest, h => by
    have h' : ch15 ≠ c1 ∧ (ch15 ≠ c2 ∧ ch15 ∉ rest) := by
      simpa [not_or] using h
    have h1 : c1 ≠ ch15 := Ne.symm h'.1
    have hrest : ch15 ∉ rest := h'.2.2
    have hrest2 : ch15 ∉ c2 :: rest := by
      simp [not_or, h'.2.1, h'.2.2]
    by_cases hc : c1 = bsl ∧ c2 = cl
    · simp only [replaceAll2, if_pos hc]
      rw [hc.1, hc.2]
      simp [replaceCh, show ch15 ≠ ch14 by decide, show bsl ≠ ch14 by decide,
        hcl, show bsl ≠ ch15 by decide,
        replaceCh15_pass op cl hcl hop rest hrest]
    · simp only [replaceAll2, if_neg hc]
      by_cases h14 : c1 = ch14
      · simp [replaceCh, h14, hop, show bsl ≠ ch15 by decide,
          show ch14 ≠ ch15 by decide,
          replaceCh15_pass op cl hcl hop (c2 :: rest) hrest2]
      · simp [replaceCh, h1, h14,
          replaceCh15_pass op cl hcl hop (c2 :: rest) hrest2]

/-- Round trip is the identity on sentinel-free strings, for bracket characters
that are not themselves sentinels. -/
theorem decode_encode_of_no_sentinel (s : Str) (op cl : Char)
    (h14 : ch14 ∉ s) (h15 : ch15 ∉ s) (hcl : cl ≠ ch14) (hop : op ≠ ch15) :
    EscapedBracketCodec.decode (EscapedBracketCodec.encode s op cl) op cl = s := by
  unfold EscapedBracketCodec.decode EscapedBracketCodec.encode
  have h15e : ch15 ∉ replaceAll2 bsl op ch14 s := by
    intro hmem
    rcases mem_replaceAll2 bsl op ch14 ch15 s hmem with h | h
    · exact h15 h
    · exact absurd h (by decide)
  rw [replaceCh15_pass op cl hcl hop (replaceAll2 bsl op ch14 s) h15e,
    replaceCh14_replaceAll2 op s h14]

/-- Length accounting for the round trip: each naked sentinel in the input
grows the output by one character. -/
theorem decode_encode_length (s : Str) (op cl : Char)
    (hop14 : op ≠ ch14) (hop15 : op ≠ ch15) (hcl14 : cl ≠ ch14)
    (hcl15 : cl ≠ ch15) :
    (EscapedBracketCodec.decode (EscapedBracketCodec.encode s op cl) op cl).length
      = s.length + s.count ch14 + s.count ch15 := by
  unfold EscapedBracketCodec.decode EscapedBracketCodec.encode
  set t1 := replaceAll2 bsl op ch14 s with ht1
  set t2 := replaceAll2 bsl cl ch15 t1 with ht2
  set t3 := replaceCh ch14 [bsl, op] t2 with ht3
  have e4 : (replaceCh ch15 [bsl, cl] t3).length = t3.length + t3.count ch15 :=
    length_replaceCh_pair ch15 bsl cl t3
  have e3c : t3.count ch15 = t2.count ch15 :=
    count_replaceCh_pair_other ch14 bsl op ch15 (by decide) (by decide)
      (Ne.symm hop15) t2
  have e3 : t3.length = t2.length + t2.count ch14 :=
    length_replaceCh_pair ch14 bsl op t2
  have e2c : t2.count ch14 = t1.count ch14 :=
    count_replaceAll2_other bsl cl ch15 ch14 (by decide) (Ne.symm hcl14)
      (by decide) t1
  have e2 : t2.length + t2.count ch15 = t1.length + t1.count ch15 :=
    length_add_count_replaceAll2 bsl cl ch15 (by decide) hcl15 t1
  have e1c : t1.count ch15 = s.count ch15 :=
    count_replaceAll2_other bsl op ch14 ch15 (by decide) (Ne.symm hop15)
      (by decide) s
  have e1 : t1.length + t1.count ch14 = s.length + s.count ch14 :=
    length_add_count_replaceAll2 bsl op ch14 (by decide) hop14 s
  omega

/-- C10 (amended): for bracket characters distinct from the two sentinel
characters, the `EscapedBracketCodec` round trip is the identity exactly on
strings containing neither sentinel. -/
theorem claim10_escaped_bracket_roundtrip (op cl : Char)
    (hop14 : op ≠ ch14) (hop15 : op ≠ ch15) (hcl14 : cl ≠ ch14)
    (hcl15 : cl ≠ ch15) (s : Str) :
    EscapedBracketCodec.decode (EscapedBracketCodec.encode s op cl) op cl = s
      ↔ (ch14 ∉ s ∧ ch15 ∉ s) := by
  constructor
  · intro h
    have hl := decode_encode_length s op cl hop14 hop15 hcl14 hcl15
    rw [h] at hl
    constructor
    · intro hmem
      have := List.count_pos_iff.2 hmem
      omega
    · intro hmem
      have := List.count_pos_iff.2 hmem
      omega
  · rintro ⟨h14, h15⟩
    exact decode_encode_of_no_sentinel s op cl h14 h15 hcl14 hop15

/-- C10 (counterexample): the round trip fails on a sentinel-free string for
the degenerate bracket pair whose closer is the 14-sentinel, so the claim's
"for every bracket pair" equivalence is false as stated. -/
theorem claim10_counterexample :
    ch14 ∉ ("\\\\a").data ∧ ch15 ∉ ("\\\\a").data ∧
      EscapedBracketCodec.decode
          (EscapedBracketCodec.encode (("\\\\a").data) ('a') ch14) ('a') ch14
        ≠ ("\\\\a").data := by
  decide

/-- C10 (witness): the amended equivalence evaluated at the real bracket pair
of the program and a concrete string with an escaped bracket. -/
theorem claim10_witness :
    EscapedBracketCodec.decode
        (EscapedBracketCodec.encode (("ab\\[c").data) ('[') (']')) ('[') (']')
      = ("ab\\[c").data ↔ (ch14 ∉ ("ab\\[c").data ∧ ch15 ∉ ("ab\\[c").data) :=
  claim10_escaped_bracket_roundtrip '[' ']' (by decide) (by decide) (by decide)
    (by decide) (("ab\\[c").data)

/-! ### ParenthesesParser -/

/-- A node of the bracket tree produced by `ParenthesesParser.parse`: the
Python code builds lists whose elements are either strings or nested lists. -/
inductive Part where
  | text (s : Str)
  | nested (parts : List Part)

/-- One level of `ParenthesesParser.parse._parse_parentheses`, with fuel for
the index-based Python recursion.  `i` is the absolute index in the encoded
string, `balance` the balance parameter, `seg` the pending literal segment
`format_string[start:i]`, `acc` the components collected so far and `cs` the
characters from index `i` on.  Returns this level's components, the index of
its closer (or of end-of-input) and the characters after the closer. -/
def parseParenAux (op cl : Char) :
    Nat → Nat → Nat → Str → List Part → Str →
      Except Str (List Part × Nat × Str)
  | 0, _, _, _, _, _ => .error (("out of fuel").data)
  | _ + 1, i, _, seg, acc, [] =>
    .ok (acc ++ [.text (EscapedBracketCodec.decode seg op cl)], i, [])
  | fuel + 1, i, balance, seg, acc, c :: rest =>
    if c = op then
      let acc1 := if 0 < i then
        acc ++ [.text (EscapedBracketCodec.decode seg op cl)] else acc
      match parseParenAux op cl fuel (i + 1) (balance + 1) [] [] rest with
      | .error e => .error e
      | .ok (sub, j, rest1) =>
        parseParenAux op cl fuel (j + 1) balance [] (acc1 ++ [.nested sub]) rest1
    else if c = cl then
      if balance = 0 then .error (("Unbalanced parentheses!").data)
      else .ok (acc ++ [.text (EscapedBracketCodec.decode seg op cl)], i, rest)
    else
      parseParenAux op cl fuel (i + 1) balance (seg ++ [c]) acc rest

/-- `ParenthesesParser.parse`: encode escaped brackets, run the recursive
scan from index 0 with balance 0, return the components. -/
def ParenthesesParser.parse (op cl : Char) (format_string : Str) :
    Except Str (List Part) :=
  let encoded := EscapedBracketCodec.encode format_string op cl
  match parseParenAux op cl (encoded.length + 1) 0 0 [] [] encoded with
  | .error e => .error e
  | .ok (components, _, _) => .ok components

/-- Left-to-right balance scan of a string: `true` iff some closer drives the
bracket balance negative, i.e. some closer has no matching opener before it. -/
def hasUnmatchedCloser (op cl : Char) : Str → Nat → Bool
  | [], _ => false
  | c :: rest, b =>
    if c = op then hasUnmatchedCloser op cl rest (b + 1)
    else if c = cl then
      if b = 0 then true else hasUnmatchedCloser op cl rest (b - 1)
    else hasUnmatchedCloser op cl rest b

/-- A nested level (balance at least one) never fails: it consumes characters
up to its matching closer (or end of input) and the balance scan of its input
at any positive balance agrees with the scan of its leftover. -/
theorem parseParenAux_nested (op cl : Char) :
    ∀ (fuel i b : Nat) (seg : Str) (acc : List Part) (cs : Str),
      cs.length < fuel → 1 ≤ b →
      ∃ out j rest1,
        parseParenAux op cl fuel i b seg acc cs = .ok (out, j, rest1) ∧
          rest1.length ≤ cs.length ∧
          ∀ b2, hasUnmatchedCloser op cl cs (b2 + 1)
            = hasUnmatchedCloser op cl rest1 b2
  | fuel + 1, i, b, seg, acc, [], _, _ => by
    refine ⟨acc ++ [.text (EscapedBracketCodec.decode seg op cl)], i, [], ?_,
      by simp, fun b2 => rfl⟩
    simp only [parseParenAux]
  | fuel + 1, i, b, seg, acc, c :: rest, hlen, hb => by
    have hlen' : rest.length < fuel := by
      simp only [List.length_cons] at hlen; omega
    by_cases hop : c = op
    · obtain ⟨sub, j, rest1, h1, hr1, hs1⟩ :=
        parseParenAux_nested op cl fuel (i + 1) (b + 1) [] [] rest hlen'
          (by omega)
      obtain ⟨out, j2, rest2, h2, hr2, hs2⟩ :=
        parseParenAux_nested op cl fuel (j + 1) b []
          ((if 0 < i then
              acc ++ [.text (EscapedBracketCodec.decode seg op cl)]
            else acc) ++ [.nested sub]) rest1 (by omega) hb
      refine ⟨out, j2, rest2, ?_, by simp only [List.length_cons]; omega, ?_⟩
      · simp only [parseParenAux]
        rw [if_pos hop, h1]
        exact h2
      · intro b2
        simp only [hasUnmatchedCloser]
        rw [if_pos hop]
        rw [hs1 (b2 + 1), hs2 b2]
    · by_cases hcl : c = cl
      · have hb0 : ¬ b = 0 := by omega
        refine ⟨acc ++ [.text (EscapedBracketCodec.decode seg op cl)], i, rest,
          ?_, by simp, ?_⟩
        · simp only [parseParenAux]
          rw [if_neg hop, if_pos hcl, if_neg hb0]
        · intro b2
          simp only [hasUnmatchedCloser]
          rw [if_neg hop, if_pos hcl, if_neg (show ¬ b2 + 1 = 0 by omega)]
          simp
      · obtain ⟨out, j, rest1, h1, hr1, hs1⟩ :=
          parseParenAux_nested op cl fuel (i + 1) b (seg ++ [c]) acc rest hlen'
            hb
        refine ⟨out, j, rest1, ?_, by simp only [List.length_cons]; omega, ?_⟩
        · simp only [parseParenAux]
          rw [if_neg hop, if_neg hcl]
          exact h1
        · intro b2
          simp only [hasUnmatchedCloser]
          rw [if_neg hop, if_neg hcl]
          exact hs1 b2

/-- The top level (balance zero) fails with the unbalanced-parentheses error
exactly when the balance scan goes negative. -/
theorem parseParenAux_top (op cl : Char) :
    ∀ (fuel i : Nat) (seg : Str) (acc : List Part) (cs : Str),
      cs.length < fuel →
      (hasUnmatchedCloser op cl cs 0 = true →
        parseParenAux op cl fuel i 0 seg acc cs
          = .error (("Unbalanced parentheses!").data)) ∧
      (hasUnmatchedCloser op cl cs 0 = false →
        ∃ out j r, parseParenAux op cl fuel i 0 seg acc cs = .ok (out, j, r))
  | fuel + 1, i, seg, acc, [], _ => by
    constructor
    · intro h
      simp [hasUnmatchedCloser] at h
    · intro _
      refine ⟨acc ++ [.text (EscapedBracketCodec.decode seg op cl)], i, [], ?_⟩
      simp only [parseParenAux]
  | fuel + 1, i, seg, acc, c :: rest, hlen => by
    have hlen' : rest.length < fuel := by
      simp only [List.length_cons] at hlen; omega
    by_cases hop : c = op
    · obtain ⟨sub, j, rest1, h1, hr1, hs1⟩ :=
        parseParenAux_nested op cl fuel (i + 1) 1 [] [] rest hlen' (by omega)
      obtain ⟨htrue, hfalse⟩ :=
        parseParenAux_top op cl fuel (j + 1) []
          ((if 0 < i then
              acc ++ [.text (EscapedBracketCodec.decode seg op cl)]
            else acc) ++ [.nested sub]) rest1 (by omega)
      have hscan : hasUnmatchedCloser op cl (c :: rest) 0
          = hasUnmatchedCloser op cl rest1 0 := by
        simp only [hasUnmatchedCloser]
        rw [if_pos hop]
        exact hs1 0
      constructor
      · intro h
        rw [hscan] at h
        simp only [parseParenAux]
        rw [if_pos hop, h1]
        exact htrue h
      · intro h
        rw [hscan] at h
        obtain ⟨out, j2, r2, h2⟩ := hfalse h
        refine ⟨out, j2, r2, ?_⟩
        simp only [parseParenAux]
        rw [if_pos hop, h1]
        exact h2
    · by_cases hcl : c = cl
      · constructor
        · intro _
          simp only [parseParenAux]
          rw [if_neg hop, if_pos hcl]
          simp
        · intro h
          simp only [hasUnmatchedCloser] at h
          rw [if_neg hop, if_pos hcl] at h
          simp at h
      · obtain ⟨htrue, hfalse⟩ :=
          parseParenAux_top op cl fuel (i + 1) (seg ++ [c]) acc rest hlen'
        have hscan : hasUnmatchedCloser op cl (c :: rest) 0
            = hasUnmatchedCloser op cl rest 0 := by
          simp only [hasUnmatchedCloser]
          rw [if_neg hop, if_neg hcl]
        constructor
        · intro h
          rw [hscan] at h
          simp only [parseParenAux]
          rw [if_neg hop, if_neg hcl]
          exact htrue h
        · intro h
          rw [hscan] at h
          obtain ⟨out, j, r, h1⟩ := hfalse h
          refine ⟨out, j, r, ?_⟩
          simp only [parseParenAux]
          rw [if_neg hop, if_neg hcl]
          exact h1

/-- C5: the parentheses parser raises the "Unbalanced parentheses" error
exactly when the escaped-bracket-encoded input contains a closer with no
matching opener to its left; in particular an unmatched opener is tolerated,
and the truncated input `"[a"` parses to the very same structure as the
closed input `"[a]"`. -/
theorem claim5_unbalanced_parentheses :
    (∀ s : Str,
      ParenthesesParser.parse '[' ']' s = .error (("Unbalanced parentheses!").data)
        ↔ hasUnmatchedCloser '[' ']'
            (EscapedBracketCodec.encode s '[' ']') 0 = true) ∧
      ParenthesesParser.parse '[' ']' (("[a").data)
        = ParenthesesParser.parse '[' ']' (("[a]").data) := by
  constructor
  · intro s
    have hdef : ParenthesesParser.parse '[' ']' s
        = match parseParenAux '[' ']'
              ((EscapedBracketCodec.encode s '[' ']').length + 1) 0 0 [] []
              (EscapedBracketCodec.encode s '[' ']') with
          | .error e => .error e
          | .ok (components, _, _) => .ok components := rfl
    obtain ⟨htrue, hfalse⟩ :=
      parseParenAux_top '[' ']'
        ((EscapedBracketCodec.encode s '[' ']').length + 1) 0 [] []
        (EscapedBracketCodec.encode s '[' ']') (by omega)
    rw [hdef]
    constructor
    · intro h
      by_cases hscan :
          hasUnmatchedCloser '[' ']'
            (EscapedBracketCodec.encode s '[' ']') 0 = true
      · exact hscan
      · obtain ⟨out, j, r, hok⟩ :=
          hfalse (by simpa using hscan)
        rw [hok] at h
        simp at h
    · intro h
      rw [htrue h]
  · rfl

/-- C5 (witness): the characterization applied at the concrete input `"]"`. -/
theorem claim5_witness :
    ParenthesesParser.parse '[' ']' (("]").data)
      = .error (("Unbalanced parentheses!").data) :=
  (claim5_unbalanced_parentheses.1 (("]").data)).mpr (by decide)

/-! ### Placeholder grammar parser -/

/-- Lower-casing a Python string (`str.lower`, ASCII fragment). -/
def lowerStr (s : Str) : Str := s.map Char.toLower

/-- `os.linesep` on the target platform. -/
def osLinesep : Str := ['\n']

/-- Does a line start with the comment marker, as in `line.startswith("#")`. -/
def startsHash : Str → Bool
  | '#' :: _ => true
  | _ => false

/-- Helper for `str.splitlines`: split at every newline character. -/
def splitOnNl : Str → List Str
  | [] => [[]]
  | c :: rest =>
    if c = '\n' then [] :: splitOnNl rest
    else
      match splitOnNl rest with
      | s :: ss => (c :: s) :: ss
      | [] => [[c]]

/-- Python `str.splitlines()` (newline terminators only; the CLI entry point
normalizes escape sequences before any parsing). -/
def splitlinesPy (s : Str) : List Str :=
  if s.isEmpty then []
  else if s.getLast? = some '\n' then (splitOnNl s).dropLast
  else splitOnNl s

/-- Python `str.splitlines(keepends=True)`. -/
def splitlinesKeep : Str → List Str
  | [] => []
  | c :: rest =>
    match splitlinesKeep rest with
    | [] => [[c]]
    | l :: ls => if c = '\n' then [c] :: l :: ls else (c :: l) :: ls

/-- First-match lookup in an association list (Python `dict` access; all the
dictionaries built by the program have unique keys). -/
def lookupKey {α : Type} (m : List (Str × α)) (k : Str) : Option α :=
  match m with
  | [] => none
  | (k2, v) :: rest => if k2 = k then some v else lookupKey rest k

/-- Python `k in dict`. -/
def memKey {α : Type} (m : List (Str × α)) (k : Str) : Bool :=
  (lookupKey m k).isSome

/-- The parsed fields of one `<...>` token before lower-casing:
name, repeatable marker, codec chain, default. -/
structure PHRaw where
  name : Str
  repeatable : Bool
  codecs : List (Str × List Str)
  default : Option Str
deriving DecidableEq

/-- `pyparsing` `Word(alphas, alphanums + "_")`: a name starts with a letter
and continues with letters, digits or underscores (greedy). -/
def matchName : Str → Option (Str × Str)
  | [] => none
  | c :: rest =>
    if c.isAlpha then
      some (c :: rest.takeWhile (fun x => x.isAlphanum || x = '_'),
        rest.dropWhile (fun x => x.isAlphanum || x = '_'))
    else none

/-- `pyparsing` `QuotedString(q)`: a quote, content without the quote
character or a newline, and the closing quote. -/
def matchQuoted1 (q : Char) : Str → Option (Str × Str)
  | [] => none
  | c :: rest =>
    if c = q then
      let content := rest.takeWhile (fun x => ¬(x = q ∨ x = '\n'))
      match rest.dropWhile (fun x => ¬(x = q ∨ x = '\n')) with
      | c2 :: rest2 => if c2 = q then some (content, rest2) else none
      | [] => none
    else none

/-- `QuotedString(squote) | QuotedString(dquote)`. -/
def matchQuoted (cs : Str) : Option (Str × Str) :=
  match matchQuoted1 (Char.ofNat 39) cs with
  | some r => some r
  | none => matchQuoted1 '"' cs

/-- `ZeroOrMore(COLON + quoted_string)` after a codec name. -/
def matchCodecArgs : Nat → Str → List Str × Str
  | 0, cs => ([], cs)
  | fuel + 1, cs =>
    match cs with
    | ':' :: rest =>
      (match matchQuoted rest with
       | some (arg, rest1) =>
         let (args, rest2) := matchCodecArgs fuel rest1
         (arg :: args, rest2)
       | none => ([], cs))
    | _ => ([], cs)

/-- `ZeroOrMore(Group(PIPE + name + ZeroOrMore(COLON + quoted_string)))`. -/
def matchCodecs : Nat → Str → List (Str × List Str) × Str
  | 0, cs => ([], cs)
  | fuel + 1, cs =>
    match cs with
    | '|' :: rest =>
      (match matchName rest with
       | some (cname, rest1) =>
         let (args, rest2) := matchCodecArgs fuel rest1
         let (more, rest3) := matchCodecs fuel rest2
         ((cname, args) :: more, rest3)
       | none => ([], cs))
    | _ => ([], cs)

/-- One attempt of `PlaceholderFormatParser.placeholder_format` at the start
of `cs`: `< name ["..."] codecs [= quoted] >` with no whitespace anywhere.
Returns the parsed fields and the number of characters consumed. -/
def matchPlaceholder (cs : Str) : Option (PHRaw × Nat) :=
  match cs with
  | '<' :: rest =>
    (match matchName rest with
     | none => none
     | some (nm, r1) =>
       let rep := decide (r1.take 3 = ['.', '.', '.'])
       let r2 := if rep then r1.drop 3 else r1
       let (cds, r3) := matchCodecs (r2.length + 1) r2
       let dr : Option Str × Str :=
         match r3 with
         | '=' :: r =>
           (match matchQuoted r with
            | some (d, r5) => (some d, r5)
            | none => (none, r3))
         | _ => (none, r3)
       match dr.2 with
       | '>' :: r5 => some (⟨nm, rep, cds, dr.1⟩, cs.length - r5.length)
       | _ => none)
  | _ => none

/-- `pyparsing` `scanString` over one leaf segment: try a match at every
position, emit `(fields, start, end)` and continue after each match. -/
def scanPlaceholders : Nat → Nat → Str → List (PHRaw × Nat × Nat)
  | 0, _, _ => []
  | _ + 1, _, [] => []
  | fuel + 1, pos, c :: rest =>
    match matchPlaceholder (c :: rest) with
    | some (raw, k) =>
      (raw, pos, pos + k) :: scanPlaceholders fuel (pos + k) ((c :: rest).drop k)
    | none => scanPlaceholders fuel (pos + 1) rest

/-- `PlaceholderFormat`: one placeholder occurrence (name lower-cased, codec
names lower-cased, optional default, repeatable and required flags, absolute
start/end offsets of the `<...>` token in the scanned, escape-encoded text).
The Python attribute `end` is called `stop` here (`end` is a Lean keyword). -/
structure PlaceholderFormat where
  name : Str
  codecs : List (Str × List Str)
  default : Option Str
  repeatable : Bool
  required : Bool
  start : Nat
  stop : Nat
deriving DecidableEq

/-- `PlaceholderFormatParser.parse._parse_part`: scan one leaf segment after
encoding escaped angle brackets.  The Python `OrderedDict.fromkeys` step is
keyed by `PlaceholderFormat` object identity (the class defines no `__eq__`),
so it never merges anything and is a no-op; the match list is kept as-is. -/
def parsePart (part : Str) (required : Bool) : List PlaceholderFormat :=
  let encoded := EscapedBracketCodec.encode part '<' '>'
  (scanPlaceholders (encoded.length + 1) 0 encoded).map
    (fun rse =>
      ⟨lowerStr rse.1.name, rse.1.codecs.map (fun c => (lowerStr c.1, c.2)),
        rse.1.default, rse.1.repeatable, required, rse.2.1, rse.2.2⟩)

/-- `PlaceholderFormatParser.parse._parse_parts`: walk the bracket tree,
depth 0 placeholders are required.  The fuel is bounded by the node count. -/
def partsPlaceholders : Nat → List Part → Nat → List PlaceholderFormat
  | 0, _, _ => []
  | _ + 1, [], _ => []
  | fuel + 1, .text t :: rest, i =>
    parsePart t (decide (i = 0)) ++ partsPlaceholders fuel rest i
  | fuel + 1, .nested ps :: rest, i =>
    partsPlaceholders fuel ps (i + 1) ++ partsPlaceholders fuel rest i

/-- `PlaceholderFormatParser.parse` (with the default angle-bracket pair):
split into the bracket tree, then scan each leaf segment. -/
def PlaceholderFormatParser.parse (format_string : Str) :
    Except Str (List PlaceholderFormat) :=
  match ParenthesesParser.parse '[' ']' format_string with
  | .error e => .error e
  | .ok parts => .ok (partsPlaceholders (2 * format_string.length + 4) parts 0)

/-! ### Format-string minifier -/

/-- Truthiness of a placeholder default (`not placeholder.default`):
`None` and the empty string are falsy. -/
def defaultTruthy (p : PlaceholderFormat) : Bool :=
  match p.default with
  | some d => ¬ d.isEmpty
  | none => false

/-- `FormatStringParser._remove_optionals`.  The result `[]` is the
"drop this level" signal, exactly as in the Python code. -/
def removeOptionals : Nat → List (Str × Bool) → Bool → List Part →
    Except Str (List Part)
  | 0, _, _, _ => .error (("out of fuel").data)
  | _ + 1, _, _, [] => .ok []
  | fuel + 1, arguments, required, part :: rest =>
    match part with
    | .text t =>
      (match PlaceholderFormatParser.parse t with
       | .error e => .error e
       | .ok placeholders =>
         if placeholders.any
             (fun p => ¬ memKey arguments p.name ∧ ¬ defaultTruthy p) then
           .ok []
         else if placeholders.any
             (fun p => memKey arguments p.name ∧
               lookupKey arguments p.name = some false) ∧ ¬ required then
           .ok []
         else
           match removeOptionals fuel arguments required rest with
           | .error e => .error e
           | .ok r => .ok (.text t :: r))
    | .nested ps =>
      (match removeOptionals fuel arguments false ps with
       | .error e => .error e
       | .ok sub =>
         match removeOptionals fuel arguments required rest with
         | .error e => .error e
         | .ok r => .ok (.nested sub :: r))

/-- `FormatStringParser._flatten_list`. -/
def flattenParts : Nat → List Part → List Str
  | 0, _ => []
  | _ + 1, [] => []
  | fuel + 1, .text t :: rest => t :: flattenParts fuel rest
  | fuel + 1, .nested ps :: rest => flattenParts fuel ps ++ flattenParts fuel rest

/-- One non-comment line of `FormatStringParser.parse`.  Note that on the
no-brackets and not-all-essentials-set fallback paths the whole original
(possibly multi-line) format string is appended, not the line. -/
def minifyLine (format_string : Str) (arguments : List (Str × Bool))
    (line : Str) : Except Str Str :=
  if startsHash line then .ok line
  else
    match ParenthesesParser.parse '[' ']' line with
    | .error e => .error e
    | .ok parentheses =>
      if parentheses.isEmpty then .ok format_string
      else
        match removeOptionals (2 * line.length + 4) arguments true
            parentheses with
        | .error e => .error e
        | .ok essentials =>
          if essentials.isEmpty then .ok format_string
          else .ok (flattenParts (2 * line.length + 4) essentials).flatten

/-- `FormatStringParser.parse`: minify a format string per line given the
presence map `arguments` (name, is-non-empty). -/
def FormatStringParser.parse (format_string : Str)
    (arguments : List (Str × Bool)) : Except Str Str :=
  match (splitlinesPy format_string).mapM
      (minifyLine format_string arguments) with
  | .error e => .error e
  | .ok lines => .ok (List.intercalate osLinesep lines)

/-- C4 (counterexample): a non-comment line containing no bracket at all is
re-emitted as itself, not replaced by the entire format string — the bracket
parser always returns a non-empty component list, so the no-brackets fallback
branch is unreachable and the claimed duplication does not happen for the
line `"abc"` of `"abc\n[x]"`. -/
theorem claim4_counterexample :
    FormatStringParser.parse (("abc\n[x]").data) [] = .ok (("abc\nx").data) ∧
      ("abc\nx").data ≠ ("abc\n[x]\nx").data := by
  constructor
  · rfl
  · decide

/-- Every successful return of the recursive scan carries a component list
of the form `acc ++ [last component]`, hence a non-empty one. -/
lemma parseParenAux_ne_nil (op cl : Char) :
    ∀ (fuel i balance : Nat) (seg : Str) (acc : List Part) (cs : Str)
      (parts : List Part) (j : Nat) (r : Str),
      parseParenAux op cl fuel i balance seg acc cs = .ok (parts, j, r) →
      parts ≠ [] := by
  intro fuel
  induction fuel with
  | zero =>
    intro i b seg acc cs parts j r h
    exact Except.noConfusion h
  | succ fuel ih =>
    intro i b seg acc cs parts j r h
    cases cs with
    | nil =>
      simp only [parseParenAux] at h
      injection h with h2
      rw [Prod.mk.injEq, Prod.mk.injEq] at h2
      rw [← h2.1]
      simp
    | cons c rest =>
      simp only [parseParenAux] at h
      by_cases hop : c = op
      · rw [if_pos hop] at h
        cases hrec : parseParenAux op cl fuel (i + 1) (b + 1) [] [] rest with
        | error e =>
          rw [hrec] at h
          exact Except.noConfusion h
        | ok v =>
          obtain ⟨sub, j2, rest1⟩ := v
          rw [hrec] at h
          exact ih _ _ _ _ _ _ _ _ h
      · rw [if_neg hop] at h
        by_cases hcl : c = cl
        · rw [if_pos hcl] at h
          by_cases hb : b = 0
          · rw [if_pos hb] at h
            exact Except.noConfusion h
          · rw [if_neg hb] at h
            injection h with h2
            rw [Prod.mk.injEq, Prod.mk.injEq] at h2
            rw [← h2.1]
            simp
        · rw [if_neg hcl] at h
          exact ih _ _ _ _ _ _ _ _ h

/-- `ParenthesesParser.parse` never returns an empty component list, for any
bracket pair and any input: the `if not parentheses` fallback of
`FormatStringParser.parse` is dead code. -/
lemma paren_parse_ne_nil (op cl : Char) (s : Str) (parts : List Part)
    (h : ParenthesesParser.parse op cl s = .ok parts) : parts ≠ [] := by
  simp only [ParenthesesParser.parse] at h
  cases hrec : parseParenAux op cl
      ((EscapedBracketCodec.encode s op cl).length + 1) 0 0 [] []
      (EscapedBracketCodec.encode s op cl) with
  | error e =>
    rw [hrec] at h
    exact Except.noConfusion h
  | ok v =>
    obtain ⟨ps, j, r⟩ := v
    rw [hrec] at h
    injection h with h2
    rw [← h2]
    exact parseParenAux_ne_nil op cl _ _ _ _ _ _ _ _ _ hrec

/-- C4 (amended): the minifier's whole-format-string fallback is driven by
unresolved root placeholders, never by a missing bracket.  For every bracket
pair and every input string a successful `ParenthesesParser.parse` returns a
non-empty component list, so the no-bracket fallback branch of the minifier
is unreachable; on the designated examples, minifying `"<arg>\nabc"` with no
arguments replaces the unresolved bracketless line `"<arg>"` by the entire
two-line format string (duplicating `"abc"`), while `"xy\n[<b>]"` keeps the
resolvable bracketless line `"xy"` as itself and drops the unresolved
optional section of the other line. -/
theorem claim4_minifier_fallback :
    (∀ (op cl : Char) (s : Str) (parts : List Part),
        ParenthesesParser.parse op cl s = .ok parts → parts ≠ [])
    ∧ FormatStringParser.parse (("<arg>\nabc").data) []
        = .ok (("<arg>\nabc\nabc").data)
    ∧ FormatStringParser.parse (("xy\n[<b>]").data) [] = .ok (("xy\n").data) :=
  ⟨paren_parse_ne_nil, rfl, rfl⟩

/-- C4 witness: the universal non-emptiness conjunct applied to the bracket
pair of the program and the bracketless line `"ab"`, whose parse is the
single text component `"ab"`. -/
theorem claim4_witness :
    ParenthesesParser.parse '[' ']' (("ab").data)
        = .ok [Part.text (("ab").data)]
    ∧ [Part.text (("ab").data)] ≠ ([] : List Part) :=
  ⟨rfl, claim4_minifier_fallback.1 '[' ']' (("ab").data)
    [Part.text (("ab").data)] rfl⟩

/-! ### Data (value multimap) -/

/-- One stored value in a `Data` value list.  The CLI pipeline stores
strings; the repeatable-placeholder path of `transform_data` stores a whole
list of strings as a single value under the suffixed key. -/
inductive Cell where
  | s (v : Str)
  | l (vs : List Str)
deriving DecidableEq

/-- `Data`: ordered mapping from lower-cased placeholder names to value
lists (Python `defaultdict(list)`, insertion order preserved). -/
abbrev DataT := List (Str × List Cell)

/-- Shell-like whitespace for `shlex`. -/
def isShWs (c : Char) : Bool := c = ' ' ∨ c = '\t' ∨ c = '\n' ∨ c = '\r'

/-- The apostrophe character. -/
def apos : Char := Char.ofNat 39

/-- Scan the inside of a double-quoted region for `shlex.split` (POSIX mode:
a backslash escapes the quote and the backslash, otherwise stays literal). -/
def dquoteScan : Nat → Str → Str × Str
  | 0, cs => ([], cs)
  | _ + 1, [] => ([], [])
  | fuel + 1, c :: rest =>
    if c = '"' then ([], rest)
    else if c = bsl then
      match rest with
      | [] => ([bsl], [])
      | c2 :: rest2 =>
        if c2 = '"' ∨ c2 = bsl then
          let (w, r) := dquoteScan fuel rest2
          (c2 :: w, r)
        else
          let (w, r) := dquoteScan fuel rest
          (bsl :: w, r)
    else
      let (w, r) := dquoteScan fuel rest
      (c :: w, r)

/-- Model of Python `shlex.split` (POSIX rules: whitespace separates words,
single quotes are literal runs, double quotes allow escaped quotes,
a backslash escapes the next character).  Python raises `ValueError` on an
unterminated quote; the model takes the rest of the input as the final
token — the modelled pipeline never reaches that corner. -/
def shlexAux : Nat → Str → Option Str → List Str
  | 0, _, cur => match cur with | none => [] | some w => [w]
  | _ + 1, [], cur => match cur with | none => [] | some w => [w]
  | fuel + 1, c :: rest, cur =>
    if isShWs c then
      match cur with
      | none => shlexAux fuel rest none
      | some w => w :: shlexAux fuel rest none
    else if c = apos then
      shlexAux fuel ((rest.dropWhile (fun x => ¬ x = apos)).drop 1)
        (some (cur.getD [] ++ rest.takeWhile (fun x => ¬ x = apos)))
    else if c = '"' then
      let (content, rest2) := dquoteScan fuel rest
      shlexAux fuel rest2 (some (cur.getD [] ++ content))
    else if c = bsl then
      match rest with
      | [] => shlexAux fuel [] (some (cur.getD []))
      | c2 :: rest2 => shlexAux fuel rest2 (some (cur.getD [] ++ [c2]))
    else shlexAux fuel rest (some (cur.getD [] ++ [c]))

/-- `shlex.split`. -/
def shlexSplit (cs : Str) : List Str := shlexAux (cs.length + 1) cs none

/-- `v.startswith(a + b)`. -/
def startsWith2 (a b : Char) (v : Str) : Bool :=
  match v with
  | x :: y :: _ => x = a ∧ y = b
  | _ => false

/-- `v.endswith(a + b)`. -/
def endsWith2 (a b : Char) (v : Str) : Bool :=
  match v.reverse with
  | y :: x :: _ => x = a ∧ y = b
  | _ => false

/-- `defaultdict(list)` append of cells under a key: a missing key is created
at the end of the dictionary order, an existing key is extended in place. -/
def appendCells (d : DataT) (k : Str) (cs : List Cell) : DataT :=
  match d with
  | [] => [(k, cs)]
  | (k2, v) :: rest =>
    if k2 = k then (k2, v ++ cs) :: rest else (k2, v) :: appendCells rest k cs

/-- Python `dict` assignment `d[k] = v`: an existing key keeps its position,
a new key is appended. -/
def setKey {α : Type} (d : List (Str × α)) (k : Str) (v : α) :
    List (Str × α) :=
  match d with
  | [] => [(k, v)]
  | (k2, v2) :: rest =>
    if k2 = k then (k2, v) :: rest else (k2, v2) :: setKey rest k v

/-- Python `dict.pop(k, None)` (dictionary part). -/
def eraseKey {α : Type} (d : List (Str × α)) (k : Str) : List (Str × α) :=
  d.filter (fun kv => decide (¬ kv.1 = k))

/-- The argument of `Data.append`: either a single string or a list (Python
dispatches on `isinstance(values, list)`). -/
inductive AppendArg where
  | str (v : Str)
  | listOf (cs : List Cell)

/-- `Data.append`: keys are lower-cased; a single string of the list-literal
form `\( ... \)` is shell-word-split into several values; a list argument
has each element appended raw. -/
def Data.append (d : DataT) (placeholder : Str) (values : AppendArg) : DataT :=
  let key := lowerStr placeholder
  match values with
  | .listOf cs => appendCells d key cs
  | .str v =>
    if startsWith2 bsl '(' v ∧ endsWith2 bsl ')' v then
      appendCells d key
        ((shlexSplit ((v.drop 2).dropLast.dropLast)).map Cell.s)
    else appendCells d key [Cell.s v]

/-! ### Codec runner -/

/-- A registered codec: its dispatch kind (`StringCodec`, `ListCodec` or
plain `Codec`) and its `run` implementation taking the literal arguments of
the codec reference.  The Python arity check done with `inspect.signature`
is modelled by the declared `arity`. -/
inductive CodecDef where
  | str (arity : Nat) (run : Str → List Str → Except Str Str)
  | list (arity : Nat) (run : List Str → List Str → Except Str (List Str))
  | generic (arity : Nat) (runStr : Str → List Str → Except Str Str)
      (runList : List Str → List Str → Except Str Str)

/-- The codec registry `Config.codecs`. -/
abbrev CodecRegistry := List (Str × CodecDef)

/-- Declared parameter count of a codec (value parameter excluded). -/
def CodecDef.arity : CodecDef → Nat
  | .str a _ => a
  | .list a _ => a
  | .generic a _ _ => a

/-- `" ".join(values)`. -/
def joinSpace (vs : List Str) : Str := List.intercalate [' '] vs

/-- The string held by a cell.  The nested-list corner (a `Cell.l` inside a
repeatable value list) is unreachable in the modelled pipeline: CLI data
holds strings only. -/
def cellToStr : Cell → Str
  | .s v => v
  | .l _ => []

/-- `CodecRunner.run`, repeatable branch: apply each codec reference to the
value list (`StringCodec` maps, `ListCodec` transforms the list, a plain
codec reduces the list to one value). -/
def runCodecsList (reg : CodecRegistry) :
    List (Str × List Str) → List Str → Except Str (List Str)
  | [], values => .ok values
  | (cname, args) :: more, values =>
    match lookupKey reg cname with
    | none => .error (("codec not found: ").data ++ cname)
    | some cd =>
      if ¬ cd.arity = args.length then
        .error (("wrong number of codec arguments: ").data ++ cname)
      else
        match cd with
        | .str _ f =>
          (match values.mapM (fun v => f v args) with
           | .error e => .error (cname ++ (": ").data ++ e)
           | .ok vs => runCodecsList reg more vs)
        | .list _ f =>
          (match f values args with
           | .error e => .error (cname ++ (": ").data ++ e)
           | .ok vs => runCodecsList reg more vs)
        | .generic _ _ fL =>
          (match fL values args with
           | .error e => .error (cname ++ (": ").data ++ e)
           | .ok v => runCodecsList reg more [v])

/-- `CodecRunner.run`, single-value branch. -/
def runCodecsStr (reg : CodecRegistry) :
    List (Str × List Str) → Str → Except Str Str
  | [], value => .ok value
  | (cname, args) :: more, value =>
    match lookupKey reg cname with
    | none => .error (("codec not found: ").data ++ cname)
    | some cd =>
      if ¬ cd.arity = args.length then
        .error (("wrong number of codec arguments: ").data ++ cname)
      else
        match cd with
        | .str _ f =>
          (match f value args with
           | .error e => .error (cname ++ (": ").data ++ e)
           | .ok v => runCodecsStr reg more v)
        | .list _ f =>
          (match f [value] args with
           | .error e => .error (cname ++ (": ").data ++ e)
           | .ok vs => runCodecsStr reg more (joinSpace vs))
        | .generic _ fS _ =>
          (match fS value args with
           | .error e => .error (cname ++ (": ").data ++ e)
           | .ok v => runCodecsStr reg more v)

/-- `CodecRunner.run`: a list row item is processed per codec and finally
space-joined; a string row item is threaded through the codec chain. -/
def CodecRunner.run (reg : CodecRegistry) (rowItem : Cell)
    (p : PlaceholderFormat) : Except Str Str :=
  match rowItem with
  | .l vs =>
    (match runCodecsList reg p.codecs vs with
     | .error e => .error e
     | .ok out => .ok (joinSpace out))
  | .s v => runCodecsStr reg p.codecs v

/-! ### DataBuilder -/

/-- `replace_within(string, replacement, start, end)`. -/
def replaceWithin (s : Str) (replacement : Str) (start stop : Nat) : Str :=
  s.take start ++ replacement ++ s.drop stop

/-- `DataBuilder._escape_brackets` (four successive single-character
replacements; the Python `if str` guard only short-circuits the empty
string, on which every pass is the identity anyway). -/
def escapeBrackets (v : Str) : Str :=
  replaceCh '>' [bsl, '>']
    (replaceCh '<' [bsl, '<']
      (replaceCh ']' [bsl, ']']
        (replaceCh '[' [bsl, '['] v)))

/-- `DataBuilder._unescape_brackets`. -/
def unescapeBrackets (v : Str) : Str :=
  replaceAll2 bsl '>' '>'
    (replaceAll2 bsl '<' '<'
      (replaceAll2 bsl ']' ']'
        (replaceAll2 bsl '[' '[' v)))

/-- `DataBuilder._remove_comments`. -/
def removeComments (s : Str) : Str :=
  List.intercalate osLinesep ((splitlinesPy s).filter (fun l => !startsHash l))

/-- The repeatable-name suffix `"..."`. -/
def dots3 : Str := ['.', '.', '.']

/-- Step (a) of `DataBuilder.__init__`: append the default of every
placeholder with `default is not None` whose name has no data yet. -/
def collectDefaults (phs : List PlaceholderFormat) (d : DataT) : DataT :=
  phs.foldl
    (fun d p =>
      if p.default.isSome ∧ ¬ memKey d p.name then
        Data.append d p.name (.str (p.default.getD []))
      else d) d

/-- Step (b) of `DataBuilder.__init__`: the presence map handed to the
minifier (per data key, whether the value list differs from `[""]`;
reserved placeholders are always present). -/
def buildParameters (reserved : List (Str × List Str)) (d : DataT) :
    List (Str × Bool) :=
  reserved.foldl (fun m kv => setKey m kv.1 true)
    (d.foldl (fun m kv => setKey m kv.1 (decide (¬ kv.2 = [Cell.s []]))) [])

/-- `DataBuilder._assign_defaults` (truthy defaults only). -/
def assignDefaults (phs : List PlaceholderFormat) (d : DataT) : DataT :=
  phs.foldl
    (fun d p =>
      if ¬ memKey d p.name ∧ defaultTruthy p then
        Data.append d p.name (.str (p.default.getD []))
      else d) d

/-- `'x'`-quoting for error messages. -/
def quotedStr (s : Str) : Str := apos :: s ++ [apos]

/-- `DataBuilder._validate_codecs`. -/
def validateCodecs (reg : CodecRegistry) (phs : List PlaceholderFormat)
    (format_string : Str) : Except Str Unit :=
  match (phs.flatMap (fun p => p.codecs)).find?
      (fun c => ¬ memKey reg c.1) with
  | none => .ok ()
  | some c =>
    .error (("Parsing ").data ++ quotedStr format_string
      ++ (" failed! Codec ").data ++ quotedStr c.1
      ++ (" does not exist!").data)

/-- `OrderedDict.fromkeys` over strings: keep first occurrences. -/
def dedupStrAux (seen : List Str) : List Str → List Str
  | [] => []
  | v :: rest =>
    if v ∈ seen then dedupStrAux seen rest
    else v :: dedupStrAux (v :: seen) rest

/-- `<name>` rendering used in error messages. -/
def angled (n : Str) : Str := '<' :: n ++ ['>']

/-- The required placeholders without data, in first-appearance order
(`DataBuilder._validate_required_placeholders`, selection part). -/
def collectUnset (phs : List PlaceholderFormat) (df : DataT) : List Str :=
  dedupStrAux []
    ((phs.filter
        (fun p => ¬ memKey df p.name ∧ p.required ∧
          ¬ memKey df (p.name ++ dots3))).map (fun p => p.name))

/-- `DataBuilder._validate_required_placeholders`. -/
def validateRequired (phs : List PlaceholderFormat) (df : DataT) :
    Except Str Unit :=
  let unset := collectUnset phs df
  if unset.isEmpty then .ok ()
  else
    .error (("Missing data for ").data
      ++ List.intercalate [',', ' '] (unset.map angled) ++ ['!'])

/-- `itertools.product`, rightmost list varying fastest. -/
def listProd {α : Type} : List (List α) → List (List α)
  | [] => [[]]
  | l :: rest => l.flatMap (fun x => (listProd rest).map (fun r => x :: r))

/-- How a matrix cell is handed back to `Data.append` when the table is
rebuilt (`table_data.append(data_keys[j], data_matrix[i][j])`). -/
def cellToArg : Cell → AppendArg
  | .s v => .str v
  | .l vs => .listOf (vs.map Cell.s)

/-- The table-building loop of `DataBuilder.transform_data`: one row per
matrix entry, and under each repeatable name's suffixed key the whole value
list is appended once per row. -/
def buildTable (keys : List Str) (reps : List (Str × List Cell))
    (matrix : List (List Cell)) : DataT :=
  matrix.foldl
    (fun table row =>
      reps.foldl
        (fun t nr =>
          Data.append t (nr.1 ++ dots3) (.listOf [Cell.l (nr.2.map cellToStr)]))
        ((keys.zip row).foldl
          (fun t kv => Data.append t kv.1 (cellToArg kv.2)) table)) []

/-- The repeatable split of `DataBuilder.transform_data`: names all of whose
occurrences are repeatable leave the cross-product input; mixed names stay
and are additionally copied aside. -/
def splitRepeatables (phs : List PlaceholderFormat) (temp : DataT) :
    DataT × List (Str × List Cell) :=
  (temp.map (fun kv => kv.1)).foldl
    (fun tr name =>
      let pWith := phs.filter (fun p => p.name = name)
      let pRep := pWith.filter (fun p => p.repeatable)
      if pRep.isEmpty then tr
      else if pWith.length = pRep.length then
        (eraseKey tr.1 name, tr.2 ++ [(name, (lookupKey temp name).getD [])])
      else (tr.1, tr.2 ++ [(name, (lookupKey temp name).getD [])]))
    (temp, [])

/-- `DataBuilder.transform_data`. -/
def transformData (reserved : List (Str × List Str))
    (phs : List PlaceholderFormat) (data : DataT) : Except Str DataT :=
  let phNames := phs.map (fun p => p.name)
  let temp := data.foldl
    (fun t kv => if kv.1 ∈ phNames then setKey t kv.1 kv.2 else t) []
  let clash := reserved.filter (fun kv => memKey temp kv.1)
  if ¬ clash.isEmpty then
    .error (List.intercalate [',', ' '] (clash.map (fun kv => angled kv.1))
      ++ (" is/are already defined in your profile!").data)
  else
    let temp2 := reserved.foldl
      (fun t kv =>
        if kv.1 ∈ phNames then
          setKey t kv.1 ((dedupStrAux [] kv.2).map Cell.s)
        else t) temp
    let (temp3, reps) := splitRepeatables phs temp2
    .ok (buildTable (temp3.map (fun kv => kv.1)) reps
      (listProd (temp3.map (fun kv => kv.2))))

/-- `DataBuilder._replace_placeholders_in_line`: the loop body, walking the
already-reversed placeholder list.  A missing key or a short row would raise
`KeyError`/`IndexError` in Python; both are unreachable after validation. -/
def replacePHs (reg : CodecRegistry) (df : DataT)
    (lineStart lineEnd iteration : Nat) :
    List PlaceholderFormat → Str → Except Str Str
  | [], line => .ok line
  | p :: more, line =>
    if lineStart ≤ p.start ∧ p.start < lineEnd then
      match lookupKey df (if p.repeatable then p.name ++ dots3 else p.name) with
      | none => .error (("KeyError").data)
      | some row =>
        match row[iteration]? with
        | none => .error (("IndexError").data)
        | some item =>
          match CodecRunner.run reg item p with
          | .error e => .error e
          | .ok value =>
            replacePHs reg df lineStart lineEnd iteration more
              (replaceWithin line (escapeBrackets value)
                (p.start - lineStart) (p.stop - lineStart))
    else replacePHs reg df lineStart lineEnd iteration more line

/-- The per-line walk of `DataBuilder._process_format_string`: comment lines
pass through and do not advance `line_start`. -/
def processLines (reg : CodecRegistry) (df : DataT)
    (phs : List PlaceholderFormat) (iteration : Nat) :
    Nat → List Str → Except Str (List Str)
  | _, [] => .ok []
  | lineStart, line :: rest =>
    if startsHash line then
      match processLines reg df phs iteration lineStart rest with
      | .error e => .error e
      | .ok ls => .ok (line :: ls)
    else
      match replacePHs reg df lineStart (lineStart + line.length) iteration
          phs.reverse line with
      | .error e => .error e
      | .ok line2 =>
        match processLines reg df phs iteration (lineStart + line.length)
            rest with
        | .error e => .error e
        | .ok ls => .ok (line2 :: ls)

/-- `DataBuilder._process_format_string`: one output per row of the table
(the row count is the length of the first value list); with no rows the
minified format string is the single output. -/
def processFormatString (reg : CodecRegistry) (format_string : Str)
    (df : DataT) (phs : List PlaceholderFormat) :
    Except Str (List Str) :=
  let numIterations := ((df.head?.map (fun kv => kv.2.length)).getD 0)
  if numIterations = 0 then .ok [format_string]
  else
    (List.range numIterations).mapM
      (fun it =>
        match processLines reg df phs it 0 (splitlinesKeep format_string) with
        | .error e => .error e
        | .ok ls => .ok ls.flatten)

/-- The regex scan `re.findall(r"([\\]?<.*?>)", output_string)`: at each
position, an optional backslash, a `<`, a lazy run without newline, and the
first following `>`. -/
def findPlaceholderTokens : Nat → Str → List Str
  | 0, _ => []
  | _ + 1, [] => []
  | fuel + 1, c :: rest =>
    if c = bsl then
      match rest with
      | '<' :: rest2 =>
        (match rest2.dropWhile (fun x => ¬(x = '>' ∨ x = '\n')) with
         | '>' :: rest3 =>
           (bsl :: '<' :: rest2.takeWhile (fun x => ¬(x = '>' ∨ x = '\n'))
               ++ ['>']) :: findPlaceholderTokens fuel rest3
         | _ => findPlaceholderTokens fuel rest)
      | _ => findPlaceholderTokens fuel rest
    else if c = '<' then
      match rest.dropWhile (fun x => ¬(x = '>' ∨ x = '\n')) with
      | '>' :: rest3 =>
        ('<' :: rest.takeWhile (fun x => ¬(x = '>' ∨ x = '\n')) ++ ['>'])
          :: findPlaceholderTokens fuel rest3
      | _ => findPlaceholderTokens fuel rest
    else findPlaceholderTokens fuel rest

/-- `DataBuilder._check_for_unmatched_placeholders`. -/
def checkUnmatched : List Str → Except Str Unit
  | [] => .ok ()
  | output :: rest =>
    let os := ((splitlinesPy output).filter (fun l => !startsHash l)).flatten
    match (findPlaceholderTokens (os.length + 1) os).filter
        (fun t => ¬(startsWith2 bsl '<' t ∧ endsWith2 bsl '>' t)) with
    | [] => checkUnmatched rest
    | t :: _ => .error (("Invalid placeholder format: ").data ++ t)

/-- `DataBuilder.__init__` followed by `DataBuilder.build`, with the
`Config` reduced to the reserved placeholder values and the codec registry.
`PlaceholderValuePrintFormatter` is diagnostic-only output and is omitted
(it raises nothing on the paths modelled here). -/
def DataBuilder.build (reserved : List (Str × List Str))
    (reg : CodecRegistry) (format_string : Str) (data0 : DataT) :
    Except Str (List Str) :=
  match PlaceholderFormatParser.parse (removeComments format_string) with
  | .error e => .error e
  | .ok phsAll =>
    let data1 := collectDefaults phsAll data0
    match FormatStringParser.parse format_string
        (buildParameters reserved data1) with
    | .error e => .error e
    | .ok minified =>
      match PlaceholderFormatParser.parse (removeComments minified) with
      | .error e => .error e
      | .ok phs =>
        if minified.isEmpty then .ok []
        else
          let data2 := assignDefaults phs data1
          match validateCodecs reg phs format_string with
          | .error e => .error e
          | .ok _ =>
            match transformData reserved phs data2 with
            | .error e => .error e
            | .ok df =>
              match validateRequired phs df with
              | .error e => .error e
              | .ok _ =>
                match processFormatString reg minified df phs with
                | .error e => .error e
                | .ok outs =>
                  match checkUnmatched outs with
                  | .error e => .error e
                  | .ok _ => .ok (outs.map unescapeBrackets)

/-! ### Claims about the build engine -/

/-- C1: substitution is position-exact over recorded token offsets (the
embedding applies them in reverse list order, which is reverse offset order):
a value that textually contains another placeholder token is emitted
literally, never re-substituted, and does not trip the post-substitution
consistency scan; expanding `"123 <arg1> 456 <arg3>"` with `arg1` bound to
the literal text `"<arg3>"` and `arg3` bound to `"789"` yields exactly
`["123 <arg3> 456 789"]`. -/
theorem claim1_literal_collision_safety :
    DataBuilder.build [] [] (("123 <arg1> 456 <arg3>").data)
        [(("arg1").data, [Cell.s (("<arg3>").data)]),
         (("arg3").data, [Cell.s (("789").data)])]
      = .ok [("123 <arg3> 456 789").data] := by
  rfl

/-- C3: a placeholder inside an optional section whose name carries the
explicitly empty value list `[""]` drops the whole bracket span during
minification, while the root-level occurrence of the same name survives and
is substituted with the empty string: the presence map marks `arg` empty, so
`"a<arg>b[c<arg>d]"` minifies to `"a<arg>b"` and builds to `["ab"]`. -/
theorem claim3_empty_optional_dropped :
    FormatStringParser.parse (("a<arg>b[c<arg>d]").data)
        [(("arg").data, false)] = .ok (("a<arg>b").data) ∧
      DataBuilder.build [] [] (("a<arg>b[c<arg>d]").data)
        [(("arg").data, [Cell.s []])] = .ok [("ab").data] :=
  ⟨rfl, rfl⟩

theorem mem_dedupStrAux :
    ∀ (seen l : List Str) (x : Str), x ∈ l →
      x ∈ dedupStrAux seen l ∨ x ∈ seen
  | _, [], x, h => absurd h (List.not_mem_nil x)
  | seen, v :: rest, x, h => by
    by_cases hv : v ∈ seen
    · rcases List.mem_cons.1 h with h | h
      · exact Or.inr (h ▸ hv)
      · simpa [dedupStrAux, hv] using mem_dedupStrAux seen rest x h
    · rcases List.mem_cons.1 h with h | h
      · simp [dedupStrAux, hv, h]
      · rcases mem_dedupStrAux (v :: seen) rest x h with h1 | h1
        · exact Or.inl (by simp [dedupStrAux, hv, h1])
        · rcases List.mem_cons.1 h1 with h2 | h2
          · exact Or.inl (by simp [dedupStrAux, hv, h2])
          · exact Or.inr h2

/-- C6: if at least one required placeholder of the minified format string
has no row-table entry under its own or its repeatable-suffixed name, the
validation fails (so `build` errors before emitting output) with a message
rendering the whole list of missing names, and every such missing name is in
that list — not only the first; concretely, `"<arg1> <arg2>"` with no data
fails with a message naming both placeholders. -/
theorem claim6_missing_required_reported :
    (∀ (phs : List PlaceholderFormat) (df : DataT),
        (∃ p ∈ phs, p.required ∧ ¬ memKey df p.name ∧
          ¬ memKey df (p.name ++ dots3)) →
        validateRequired phs df
            = .error (("Missing data for ").data
              ++ List.intercalate [',', ' ']
                  ((collectUnset phs df).map angled) ++ ['!']) ∧
          ∀ q ∈ phs, q.required → ¬ memKey df q.name →
            ¬ memKey df (q.name ++ dots3) → q.name ∈ collectUnset phs df) ∧
      DataBuilder.build [] [] (("<arg1> <arg2>").data) []
        = .error (("Missing data for <arg1>, <arg2>!").data) := by
  constructor
  · intro phs df h
    have hmem : ∀ q ∈ phs, q.required → ¬ memKey df q.name →
        ¬ memKey df (q.name ++ dots3) → q.name ∈ collectUnset phs df := by
      intro q hq hreq hk hks
      have hqf : q ∈ phs.filter
          (fun p => decide (¬ memKey df p.name ∧ p.required ∧
            ¬ memKey df (p.name ++ dots3))) := by
        rw [List.mem_filter]
        exact ⟨hq, by simp [hk, hreq, hks]⟩
      have : q.name ∈ (phs.filter
          (fun p => decide (¬ memKey df p.name ∧ p.required ∧
            ¬ memKey df (p.name ++ dots3)))).map
            (fun p => p.name) := List.mem_map_of_mem _ hqf
      rcases mem_dedupStrAux [] _ q.name this with h1 | h1
      · exact h1
      · cases h1
    have hne : ¬ (collectUnset phs df).isEmpty = true := by
      obtain ⟨p, hp, hreq, hk, hks⟩ := h
      have := hmem p hp hreq hk hks
      intro he
      rw [List.isEmpty_iff] at he
      rw [he] at this
      cases this
    refine ⟨?_, hmem⟩
    unfold validateRequired
    rw [if_neg hne]
  · rfl

/-- C6 (witness): the general statement applied to one concrete required
placeholder with an empty row table. -/
theorem claim6_witness :
    validateRequired [⟨("arg1").data, [], none, false, true, 0, 6⟩] []
      = .error (("Missing data for <arg1>!").data) := by
  have h := claim6_missing_required_reported.1
    [⟨("arg1").data, [], none, false, true, 0, 6⟩] []
    ⟨⟨("arg1").data, [], none, false, true, 0, 6⟩, by decide⟩
  rw [h.1]
  rfl

/-! ### Claim C2: cartesian-product expansion -/

/-- A character that plays no syntactic role in the template pipeline. -/
def cleanChar (c : Char) : Bool :=
  ¬(c = bsl ∨ c = '[' ∨ c = ']' ∨ c = '<' ∨ c = '>' ∨ c = '\n')

/-- A value string of syntactically inert characters. -/
def cleanStr (v : Str) : Bool := v.all cleanChar

theorem cleanStr_not_mem (v : Str) (h : cleanStr v = true) :
    bsl ∉ v ∧ '[' ∉ v ∧ ']' ∉ v ∧ '<' ∉ v ∧ '>' ∉ v ∧ '\n' ∉ v := by
  simp only [cleanStr, List.all_eq_true, cleanChar] at h
  refine ⟨fun hm => ?_, fun hm => ?_, fun hm => ?_, fun hm => ?_,
    fun hm => ?_, fun hm => ?_⟩ <;>
    · have hx := h _ hm
      simp at hx

theorem replaceCh_id (a : Char) (r : Str) :
    ∀ v : Str, a ∉ v → replaceCh a r v = v
  | [], _ => rfl
  | c :: rest, h => by
    have h1 : ¬ c = a := by
      rintro rfl
      exact h (List.mem_cons_self _ _)
    simp [replaceCh, h1,
      replaceCh_id a r rest (fun hm => h (List.mem_cons_of_mem _ hm))]

theorem replaceAll2_id (a b r : Char) :
    ∀ v : Str, a ∉ v → replaceAll2 a b r v = v
  | [], _ => rfl
  | [_], _ => rfl
  | c1 :: c2 :: rest, h => by
    have h1 : ¬(c1 = a ∧ c2 = b) := by
      rintro ⟨rfl, -⟩
      exact h (List.mem_cons_self _ _)
    simp only [replaceAll2, if_neg h1]
    rw [replaceAll2_id a b r (c2 :: rest)
      (fun hm => h (List.mem_cons_of_mem _ hm))]

theorem escapeBrackets_clean (v : Str) (h : cleanStr v = true) :
    escapeBrackets v = v := by
  obtain ⟨-, h1, h2, h3, h4, -⟩ := cleanStr_not_mem v h
  unfold escapeBrackets
  rw [replaceCh_id '[' [bsl, '['] v h1, replaceCh_id ']' [bsl, ']'] v h2,
    replaceCh_id '<' [bsl, '<'] v h3, replaceCh_id '>' [bsl, '>'] v h4]

theorem unescapeBrackets_clean (t : Str) (h : bsl ∉ t) :
    unescapeBrackets t = t := by
  unfold unescapeBrackets
  rw [replaceAll2_id bsl '[' '[' t h, replaceAll2_id bsl ']' ']' t h,
    replaceAll2_id bsl '<' '<' t h, replaceAll2_id bsl '>' '>' t h]

theorem startsWith2_false (a b : Char) (v : Str) (h : a ∉ v) :
    startsWith2 a b v = false := by
  match v with
  | [] => rfl
  | [_] => rfl
  | x :: y :: rest =>
    have hx : ¬ x = a := by
      rintro rfl
      exact h (List.mem_cons_self _ _)
    simp [startsWith2, hx]

/-- Appending a syntactically inert string never triggers the list-literal
split. -/
theorem data_append_clean (d : DataT) (k : Str) (v : Str)
    (h : cleanStr v = true) :
    Data.append d k (.str v) = appendCells d (lowerStr k) [Cell.s v] := by
  obtain ⟨hb, -, -, -, -, -⟩ := cleanStr_not_mem v h
  have hdef : Data.append d k (.str v)
      = (if startsWith2 bsl '(' v = true ∧ endsWith2 bsl ')' v = true then
          appendCells d (lowerStr k)
            ((shlexSplit ((v.drop 2).dropLast.dropLast)).map Cell.s)
        else appendCells d (lowerStr k) [Cell.s v]) := rfl
  rw [hdef, if_neg]
  intro hc
  rw [startsWith2_false bsl '(' v hb] at hc
  exact absurd hc.1 (by simp)

theorem getLast?_mem_chars :
    ∀ (l : Str) (a : Char), l.getLast? = some a → a ∈ l
  | [], a, h => by simp at h
  | [c], a, h => by
    simp at h
    simp [h]
  | c1 :: c2 :: rest, a, h => by
    rw [List.getLast?_cons_cons] at h
    exact List.mem_cons_of_mem _ (getLast?_mem_chars (c2 :: rest) a h)

theorem splitOnNl_no_nl : ∀ t : Str, '\n' ∉ t → splitOnNl t = [t]
  | [], _ => rfl
  | c :: rest, h => by
    have h1 : ¬ c = '\n' := by
      rintro rfl
      exact h (List.mem_cons_self _ _)
    simp only [splitOnNl, if_neg h1,
      splitOnNl_no_nl rest (fun hm => h (List.mem_cons_of_mem _ hm))]

theorem splitlinesPy_no_nl (t : Str) (h : '\n' ∉ t)
    (hne : ¬ t.isEmpty = true) : splitlinesPy t = [t] := by
  unfold splitlinesPy
  rw [if_neg hne, if_neg, splitOnNl_no_nl t h]
  intro hl
  exact h (getLast?_mem_chars t '\n' hl)

theorem findPH_nil :
    ∀ (fuel : Nat) (t : Str), '<' ∉ t → findPlaceholderTokens fuel t = []
  | 0, _, _ => rfl
  | _ + 1, [], _ => rfl
  | fuel + 1, c :: rest, h => by
    have hc : ¬ c = '<' := by
      rintro rfl
      exact h (List.mem_cons_self _ _)
    have hrest : '<' ∉ rest := fun hm => h (List.mem_cons_of_mem _ hm)
    by_cases hb : c = bsl
    · simp only [findPlaceholderTokens, if_pos hb]
      split
      · exact absurd (List.mem_cons_self _ _) hrest
      · exact findPH_nil fuel rest hrest
    · simp only [findPlaceholderTokens, if_neg hb, if_neg hc]
      exact findPH_nil fuel rest hrest

/-- A clean, non-comment output line passes the consistency scan. -/
theorem checkUnmatched_cons (o : Str) (rest : List Str)
    (hnl : '\n' ∉ o) (hlt : '<' ∉ o) (hne : ¬ o.isEmpty = true)
    (hhash : startsHash o = false) :
    checkUnmatched (o :: rest) = checkUnmatched rest := by
  simp only [checkUnmatched]
  rw [splitlinesPy_no_nl o hnl hne]
  simp only [List.filter, hhash, Bool.not_false, List.flatten,
    List.flatten_nil, List.append_nil]
  rw [findPH_nil _ o hlt]
  simp only [List.filter_nil]

set_option maxHeartbeats 1000000

/-- C2: with all referenced placeholders non-repeatable and assigned,
`build` emits exactly one line per element of the Cartesian product of the
value lists, in value-list order: one `arg1` value and three `arg2` values
(of syntactically inert characters) give exactly three lines, each pairing
the fixed `arg1` value with one `arg2` value in order. -/
theorem claim2_cartesian_product (a b1 b2 b3 : Str)
    (ha : cleanStr a = true) (hb1 : cleanStr b1 = true)
    (hb2 : cleanStr b2 = true) (hb3 : cleanStr b3 = true) :
    DataBuilder.build [] [] (("abc <arg1> <arg2> def").data)
        [(("arg1").data, [Cell.s a]),
         (("arg2").data, [Cell.s b1, Cell.s b2, Cell.s b3])]
      = .ok [("abc ").data ++ a ++ [' '] ++ b1 ++ (" def").data,
             ("abc ").data ++ a ++ [' '] ++ b2 ++ (" def").data,
             ("abc ").data ++ a ++ [' '] ++ b3 ++ (" def").data] := by
  have hphs : PlaceholderFormatParser.parse
      (removeComments (("abc <arg1> <arg2> def").data))
      = .ok [⟨("arg1").data, [], none, false, true, 4, 10⟩,
             ⟨("arg2").data, [], none, false, true, 11, 17⟩] := rfl
  have hmin : ∀ x y : Bool,
      FormatStringParser.parse (("abc <arg1> <arg2> def").data)
        [(("arg1").data, x), (("arg2").data, y)]
        = .ok (("abc <arg1> <arg2> def").data) := by
    intro x y
    cases x <;> cases y <;> rfl
  unfold DataBuilder.build
  rw [hphs]
  dsimp only
  rw [show collectDefaults
      [⟨("arg1").data, [], none, false, true, 4, 10⟩,
       ⟨("arg2").data, [], none, false, true, 11, 17⟩]
      [(("arg1").data, [Cell.s a]),
       (("arg2").data, [Cell.s b1, Cell.s b2, Cell.s b3])]
    = [(("arg1").data, [Cell.s a]),
       (("arg2").data, [Cell.s b1, Cell.s b2, Cell.s b3])] from rfl]
  rw [show buildParameters []
      [(("arg1").data, [Cell.s a]),
       (("arg2").data, [Cell.s b1, Cell.s b2, Cell.s b3])]
    = [(("arg1").data, decide (¬ [Cell.s a] = [Cell.s []])),
       (("arg2").data,
         decide (¬ [Cell.s b1, Cell.s b2, Cell.s b3] = [Cell.s []]))] from rfl]
  rw [hmin _ _]
  dsimp only
  rw [hphs]
  dsimp only
  rw [if_neg (by decide : ¬ (("abc <arg1> <arg2> def").data).isEmpty = true)]
  rw [show assignDefaults
      [⟨("arg1").data, [], none, false, true, 4, 10⟩,
       ⟨("arg2").data, [], none, false, true, 11, 17⟩]
      [(("arg1").data, [Cell.s a]),
       (("arg2").data, [Cell.s b1, Cell.s b2, Cell.s b3])]
    = [(("arg1").data, [Cell.s a]),
       (("arg2").data, [Cell.s b1, Cell.s b2, Cell.s b3])] from rfl]
  rw [show validateCodecs []
      [⟨("arg1").data, [], none, false, true, 4, 10⟩,
       ⟨("arg2").data, [], none, false, true, 11, 17⟩]
      (("abc <arg1> <arg2> def").data) = .ok () from rfl]
  dsimp only
  have htrans : transformData []
      [⟨("arg1").data, [], none, false, true, 4, 10⟩,
       ⟨("arg2").data, [], none, false, true, 11, 17⟩]
      [(("arg1").data, [Cell.s a]),
       (("arg2").data, [Cell.s b1, Cell.s b2, Cell.s b3])]
      = .ok (buildTable [("arg1").data, ("arg2").data] []
          [[Cell.s a, Cell.s b1], [Cell.s a, Cell.s b2],
           [Cell.s a, Cell.s b3]]) := rfl
  have htable : buildTable [("arg1").data, ("arg2").data] []
      [[Cell.s a, Cell.s b1], [Cell.s a, Cell.s b2], [Cell.s a, Cell.s b3]]
      = [(("arg1").data, [Cell.s a, Cell.s a, Cell.s a]),
         (("arg2").data, [Cell.s b1, Cell.s b2, Cell.s b3])] := by
    rw [show buildTable [("arg1").data, ("arg2").data] []
        [[Cell.s a, Cell.s b1], [Cell.s a, Cell.s b2], [Cell.s a, Cell.s b3]]
      = Data.append (Data.append (Data.append (Data.append (Data.append
          (Data.append [] (("arg1").data) (.str a)) (("arg2").data) (.str b1))
          (("arg1").data) (.str a)) (("arg2").data) (.str b2))
          (("arg1").data) (.str a)) (("arg2").data) (.str b3) from rfl]
    rw [data_append_clean _ _ _ hb3, data_append_clean _ _ _ ha,
      data_append_clean _ _ _ hb2, data_append_clean _ _ _ ha,
      data_append_clean _ _ _ hb1, data_append_clean _ _ _ ha]
    rfl
  rw [htrans, htable]
  dsimp only
  rw [show validateRequired
      [⟨("arg1").data, [], none, false, true, 4, 10⟩,
       ⟨("arg2").data, [], none, false, true, 11, 17⟩]
      [(("arg1").data, [Cell.s a, Cell.s a, Cell.s a]),
       (("arg2").data, [Cell.s b1, Cell.s b2, Cell.s b3])] = .ok () from rfl]
  dsimp only
  have hP0 : processFormatString [] (("abc <arg1> <arg2> def").data)
      [(("arg1").data, [Cell.s a, Cell.s a, Cell.s a]),
       (("arg2").data, [Cell.s b1, Cell.s b2, Cell.s b3])]
      [⟨("arg1").data, [], none, false, true, 4, 10⟩,
       ⟨("arg2").data, [], none, false, true, 11, 17⟩]
      = .ok [
        replaceWithin (replaceWithin (("abc <arg1> <arg2> def").data)
          (escapeBrackets b1) 11 17) (escapeBrackets a) 4 10 ++ [],
        replaceWithin (replaceWithin (("abc <arg1> <arg2> def").data)
          (escapeBrackets b2) 11 17) (escapeBrackets a) 4 10 ++ [],
        replaceWithin (replaceWithin (("abc <arg1> <arg2> def").data)
          (escapeBrackets b3) 11 17) (escapeBrackets a) 4 10 ++ []] := rfl
  rw [escapeBrackets_clean a ha, escapeBrackets_clean b1 hb1,
    escapeBrackets_clean b2 hb2, escapeBrackets_clean b3 hb3] at hP0
  have e1 : ∀ w : Str, replaceWithin (("abc <arg1> <arg2> def").data) w 11 17
      = ("abc <arg1> ").data ++ w ++ (" def").data := fun w => rfl
  have e2 : ∀ w v : Str,
      replaceWithin (("abc <arg1> ").data ++ w ++ (" def").data) v 4 10
        = ("abc ").data ++ (v ++ ([' '] ++ (w ++ (" def").data))) :=
    fun w v => rfl
  simp only [e1, e2, List.append_nil] at hP0
  rw [hP0]
  dsimp only
  have hnotin : ∀ (v w : Str), cleanStr v = true → cleanStr w = true →
      '\n' ∉ (("abc ").data ++ (v ++ ([' '] ++ (w ++ (" def").data)))) ∧
        '<' ∉ (("abc ").data ++ (v ++ ([' '] ++ (w ++ (" def").data)))) ∧
        bsl ∉ (("abc ").data ++ (v ++ ([' '] ++ (w ++ (" def").data)))) := by
    intro v w hv hw
    obtain ⟨hv1, -, -, hv4, -, hv6⟩ := cleanStr_not_mem v hv
    obtain ⟨hw1, -, -, hw4, -, hw6⟩ := cleanStr_not_mem w hw
    refine ⟨fun hm => ?_, fun hm => ?_, fun hm => ?_⟩ <;>
      simp only [List.mem_append] at hm
    · rcases hm with hm | hm | hm | hm | hm
      · exact absurd hm (by decide)
      · exact hv6 hm
      · exact absurd hm (by decide)
      · exact hw6 hm
      · exact absurd hm (by decide)
    · rcases hm with hm | hm | hm | hm | hm
      · exact absurd hm (by decide)
      · exact hv4 hm
      · exact absurd hm (by decide)
      · exact hw4 hm
      · exact absurd hm (by decide)
    · rcases hm with hm | hm | hm | hm | hm
      · exact absurd hm (by decide)
      · exact hv1 hm
      · exact absurd hm (by decide)
      · exact hw1 hm
      · exact absurd hm (by decide)
  obtain ⟨h1nl, h1lt, h1bs⟩ := hnotin a b1 ha hb1
  obtain ⟨h2nl, h2lt, h2bs⟩ := hnotin a b2 ha hb2
  obtain ⟨h3nl, h3lt, h3bs⟩ := hnotin a b3 ha hb3
  have hnece : ∀ (v w : Str),
      ¬ (("abc ").data ++ (v ++ ([' '] ++ (w ++ (" def").data)))).isEmpty
        = true := fun v w h => nomatch h
  have hck : checkUnmatched
      [("abc ").data ++ (a ++ ([' '] ++ (b1 ++ (" def").data))),
       ("abc ").data ++ (a ++ ([' '] ++ (b2 ++ (" def").data))),
       ("abc ").data ++ (a ++ ([' '] ++ (b3 ++ (" def").data)))] = .ok () := by
    rw [checkUnmatched_cons _ _ h1nl h1lt (hnece a b1) rfl,
      checkUnmatched_cons _ _ h2nl h2lt (hnece a b2) rfl,
      checkUnmatched_cons _ _ h3nl h3lt (hnece a b3) rfl]
    rfl
  rw [hck]
  dsimp only
  simp only [List.map_cons, List.map_nil]
  rw [unescapeBrackets_clean _ h1bs, unescapeBrackets_clean _ h2bs,
    unescapeBrackets_clean _ h3bs]
  simp [List.append_assoc]





/-- C2 (witness): the product theorem applied at concrete values. -/
theorem claim2_witness :
    DataBuilder.build [] [] (("abc <arg1> <arg2> def").data)
        [(("arg1").data, [Cell.s (("test").data)]),
         (("arg2").data,
           [Cell.s (("l1").data), Cell.s (("l2").data), Cell.s (("l3").data)])]
      = .ok [("abc ").data ++ ("test").data ++ [' '] ++ ("l1").data
               ++ (" def").data,
             ("abc ").data ++ ("test").data ++ [' '] ++ ("l2").data
               ++ (" def").data,
             ("abc ").data ++ ("test").data ++ [' '] ++ ("l3").data
               ++ (" def").data] :=
  claim2_cartesian_product (("test").data) (("l1").data) (("l2").data)
    (("l3").data) (by decide) (by decide) (by decide) (by decide)

/-! ### ArgumentFormatParser (snippet.py 186-221) -/

/-- A character of the regex class `\w` as used on these ASCII CLI tokens:
letters, digits and the underscore. -/
def isWordChar (c : Char) : Bool := c.isAlphanum || c = '_'

/-- The regex engine matching `(?:(\w+)([=:]))?` at the start of `cs`: the
greedy `(\w+)` first tries the longest word run and, when the following
`([=:])` fails, backtracks one character at a time.  `j` is the candidate
name length currently tried; on success the result is the name, the
separator character and the remainder of the string. -/
def tryNameSep (cs : Str) : Nat → Option (Str × Char × Str)
  | 0 => none
  | j + 1 =>
    match cs.drop (j + 1) with
    | c :: rest =>
      if c = '=' ∨ c = ':' then some (cs.take (j + 1), c, rest)
      else tryNameSep cs j
    | [] => tryNameSep cs j

/-- The result of `ArgumentFormatParser.parse`: either a single
`placeholder -> value` mapping (with an empty placeholder for a bare value)
or a `Data` built from the lines of the referenced file. -/
inductive ArgParseResult where
  | assign (placeholder : Str) (value : Str)
  | fileData (d : DataT)
deriving DecidableEq

/-- `ArgumentFormatParser.parse` (snippet.py 186-221): the groups of
`re.findall(r"(?:(\w+)([=:]))?(.*)", s).pop(0)` dispatch on the separator.
The filesystem is abstracted by `fs`, which maps an (`expanduser`-expanded)
path to the `splitlines` of the file content, or `none` when
`os.path.isfile` is false; each file line goes through `Data.append`. -/
def ArgumentFormatParser.parse (fs : Str → Option (List Str))
    (format_argument : Str) : Except Str ArgParseResult :=
  match tryNameSep format_argument
      (format_argument.takeWhile isWordChar).length with
  | some (nm, sep, rest) =>
    let value := rest.takeWhile (fun c => ¬ c = '\n')
    if sep = '=' then .ok (.assign nm value)
    else
      match fs value with
      | none =>
        .error (("Parsing placeholder ").data ++ quotedStr nm
          ++ (" failed! The file ").data ++ quotedStr value
          ++ (" was not found!").data)
      | some fileLines =>
        .ok (.fileData (fileLines.foldl
          (fun d line => Data.append d nm (.str line)) []))
  | none =>
    .ok (.assign [] (format_argument.takeWhile (fun c => ¬ c = '\n')))

/-- The amended argument-format rule, stated in its own words (used only to
be compared with the source-derived `ArgumentFormatParser.parse`): a token
declares a named assignment exactly when a non-empty run of word characters
at its start is followed immediately by `=` or `:`; `=` makes the rest of
the token (up to a newline) an opaque literal value, `:` reads the rest as
a file, and any other token is a bare value with an empty name. -/
def argParseSpec (fs : Str → Option (List Str)) (token : Str) :
    Except Str ArgParseResult :=
  let name := token.takeWhile isWordChar
  match token.dropWhile isWordChar with
  | c :: rest2 =>
    if name.isEmpty then
      .ok (.assign [] (token.takeWhile (fun x => ¬ x = '\n')))
    else if c = '=' then
      .ok (.assign name (rest2.takeWhile (fun x => ¬ x = '\n')))
    else if c = ':' then
      let path := rest2.takeWhile (fun x => ¬ x = '\n')
      match fs path with
      | none =>
        .error (("Parsing placeholder ").data ++ quotedStr name
          ++ (" failed! The file ").data ++ quotedStr path
          ++ (" was not found!").data)
      | some fileLines =>
        .ok (.fileData (fileLines.foldl
          (fun d line => Data.append d name (.str line)) []))
    else .ok (.assign [] (token.takeWhile (fun x => ¬ x = '\n')))
  | [] => .ok (.assign [] (token.takeWhile (fun x => ¬ x = '\n')))

/-- A word character is neither `=` nor `:`. -/
lemma isWordChar_not_sep {c : Char} (h : isWordChar c = true) :
    ¬ (c = '=' ∨ c = ':') := by
  rintro (rfl | rfl) <;> exact absurd h (by decide)

/-- Backtracking inside the word run never finds a separator: every
candidate split point is followed by a word character. -/
lemma tryNameSep_none (w rest : Str) (hw : ∀ c ∈ w, isWordChar c = true) :
    ∀ j, j < w.length → tryNameSep (w ++ rest) j = none := by
  intro j
  induction j with
  | zero => intro _; rfl
  | succ j ih =>
    intro hj
    have hlen : j + 1 < (w ++ rest).length := by
      simp only [List.length_append]; omega
    have hd : (w ++ rest).drop (j + 1)
        = (w ++ rest)[j + 1] :: (w ++ rest).drop (j + 2) :=
      List.drop_eq_getElem_cons hlen
    have hget : (w ++ rest)[j + 1] = w[j + 1] :=
      List.getElem_append_left hj
    have hmem : w[j + 1] ∈ w := List.getElem_mem hj
    rw [hget] at hd
    simp only [tryNameSep, hd]
    rw [if_neg (isWordChar_not_sep (hw _ hmem))]
    exact ih (Nat.lt_of_succ_lt hj)

/-- The regex search on a string split as word run plus remainder succeeds
exactly when the remainder starts with a separator, and then captures the
whole word run as the name. -/
lemma tryNameSep_top (w rest : Str) (hw : ∀ c ∈ w, isWordChar c = true)
    (hne : w ≠ []) :
    tryNameSep (w ++ rest) w.length
      = match rest with
        | c :: r2 => if c = '=' ∨ c = ':' then some (w, c, r2) else none
        | [] => none := by
  obtain ⟨m, hm⟩ : ∃ m, w.length = m + 1 := by
    cases w with
    | nil => exact absurd rfl hne
    | cons a t => exact ⟨t.length, rfl⟩
  rw [hm]
  cases rest with
  | nil =>
    have hd : (w ++ ([] : Str)).drop (m + 1) = [] := by
      rw [← hm, List.drop_left]
    simp only [tryNameSep, hd]
    exact tryNameSep_none w [] hw m (by omega)
  | cons c r2 =>
    have hd : (w ++ c :: r2).drop (m + 1) = c :: r2 := by
      rw [← hm, List.drop_left]
    have ht : (w ++ c :: r2).take (m + 1) = w := by
      rw [← hm, List.take_left]
    simp only [tryNameSep, hd, ht]
    by_cases hc : c = '=' ∨ c = ':'
    · rw [if_pos hc, if_pos hc]
    · rw [if_neg hc, if_neg hc]
      exact tryNameSep_none w (c :: r2) hw m (by omega)

/-- C7 counterexample: the token "a b=c" contains an `=`, but the text
before it is not a pure word-character run, so the regex name group fails
and the whole token is parsed as a bare value with an empty name — not, as
the first-separator rule of the claim predicts, as the assignment of the
value "c" to the name "a b". -/
theorem claim7_counterexample :
    ArgumentFormatParser.parse (fun _ => none) (("a b=c").data)
        = .ok (.assign [] (("a b=c").data))
      ∧ ArgParseResult.assign [] (("a b=c").data)
        ≠ .assign (("a b").data) (("c").data) :=
  ⟨rfl, by decide⟩

/-- C7 (amended): for every token, the argument parser behaves as the
word-run rule describes — a named assignment (or file reference) arises
exactly when a non-empty run of word characters at the start of the token
is immediately followed by `=` (or `:`), the value being the remainder up
to a newline; every other token, even one containing a later separator, is
a bare value with an empty name. -/
theorem claim7_arg_format (fs : Str → Option (List Str)) (token : Str) :
    ArgumentFormatParser.parse fs token = argParseSpec fs token := by
  have hsplit : token.takeWhile isWordChar ++ token.dropWhile isWordChar
      = token := List.takeWhile_append_dropWhile isWordChar token
  have hw : ∀ c ∈ token.takeWhile isWordChar, isWordChar c = true :=
    fun c hc => List.mem_takeWhile_imp hc
  by_cases hne : token.takeWhile isWordChar = []
  · simp only [ArgumentFormatParser.parse, argParseSpec, hne,
      List.length_nil, tryNameSep, List.isEmpty_nil, if_true]
    cases hdw : token.dropWhile isWordChar with
    | nil => rfl
    | cons c r2 => rfl
  · have hie : (token.takeWhile isWordChar).isEmpty = false := by
      cases h : token.takeWhile isWordChar with
      | nil => exact absurd h hne
      | cons a t => rfl
    cases hdw : token.dropWhile isWordChar with
    | nil =>
      have htop : tryNameSep token (token.takeWhile isWordChar).length
          = none := by
        have h2 := tryNameSep_top (token.takeWhile isWordChar) [] hw hne
        rw [hdw] at hsplit
        rw [hsplit] at h2
        exact h2
      simp only [ArgumentFormatParser.parse, argParseSpec, htop, hdw]
    | cons c r2 =>
      have htop : tryNameSep token (token.takeWhile isWordChar).length
          = if c = '=' ∨ c = ':' then
              some (token.takeWhile isWordChar, c, r2) else none := by
        have h2 := tryNameSep_top (token.takeWhile isWordChar) (c :: r2) hw hne
        rw [hdw] at hsplit
        rw [hsplit] at h2
        exact h2
      by_cases hc : c = '=' ∨ c = ':'
      · rw [if_pos hc] at htop
        rcases hc with rfl | rfl
        · simp only [ArgumentFormatParser.parse, argParseSpec, htop, hdw, hie,
            Bool.false_eq_true, if_false]
          rfl
        · simp only [ArgumentFormatParser.parse, argParseSpec, htop, hdw, hie,
            Bool.false_eq_true, if_false]
          rfl
      · rw [if_neg hc] at htop
        push_neg at hc
        simp only [ArgumentFormatParser.parse, argParseSpec, htop, hdw, hie,
          Bool.false_eq_true, if_false]
        rw [if_neg hc.1, if_neg hc.2]


/-! ### import_environment -/

/-- Python `str.islower` on these ASCII names: at least one cased
character and no upper-case character. -/
def islowerPy (s : Str) : Bool :=
  s.any (fun c => c.isUpper || c.isLower) && s.all (fun c => ¬ c.isUpper)

/-- `placeholder.startswith("_")`. -/
def startsUnderscore : Str → Bool
  | c :: _ => c = '_'
  | [] => false

/-- One iteration of the `import_environment` loop (snippet.py 1104-1128):
skip names that are not entirely lower-case or start with an underscore,
skip names already present as keys of the data, and append the value
through `Data.append` only when it is non-empty (Python truthiness of the
value) and the name is not reserved. -/
def importEnvStep (reserved : List Str) (d : DataT) (kv : Str × Str) :
    DataT :=
  if ¬ islowerPy kv.1 = true ∨ startsUnderscore kv.1 = true then d
  else if memKey d kv.1 then d
  else if ¬ kv.2.isEmpty = true ∧ ¬ kv.1 ∈ reserved then
    Data.append d kv.1 (.str kv.2)
  else d

/-- `Snippet.import_environment`: fold the loop body over the environment
items in order, starting from the current data. -/
def importEnvironment (env : List (Str × Str)) (reserved : List Str)
    (data0 : DataT) : DataT :=
  env.foldl (importEnvStep reserved) data0

/-- `Char.toLower` only changes upper-case characters. -/
lemma toLower_eq_of_not_upper {c : Char} (h : c.isUpper = false) :
    c.toLower = c := by
  unfold Char.toLower
  rw [if_neg]
  rintro ⟨h1, h2⟩
  rw [show c.isUpper = true from ?_] at h
  · exact Bool.false_ne_true h.symm
  · simp only [Char.isUpper, Bool.and_eq_true, decide_eq_true_eq]
    exact ⟨h1, h2⟩

/-- Lower-casing a `str.islower` name is the identity. -/
lemma lowerStr_eq_of_islower {s : Str} (h : islowerPy s = true) :
    lowerStr s = s := by
  unfold islowerPy at h
  rw [Bool.and_eq_true] at h
  have h2 := h.2
  rw [List.all_eq_true] at h2
  unfold lowerStr
  have hmap : s.map Char.toLower = s.map id := by
    apply List.map_congr_left
    intro a ha
    have := h2 a ha
    simp only [decide_eq_true_eq] at this
    exact toLower_eq_of_not_upper (by
      cases hcu : a.isUpper with
      | false => rfl
      | true => exact absurd hcu (by simpa using this))
  simpa using hmap

/-- Appending cells under one key leaves every other key unchanged. -/
lemma lookup_appendCells_other (d : DataT) (key k : Str)
    (h : ¬ key = k) (cs : List Cell) :
    lookupKey (appendCells d key cs) k = lookupKey d k := by
  induction d with
  | nil => simp only [appendCells, lookupKey, if_neg h]
  | cons kv rest ih =>
    obtain ⟨k2, v⟩ := kv
    by_cases h2 : k2 = key
    · subst h2
      simp only [appendCells, if_pos rfl, lookupKey, if_neg h]
    · simp only [appendCells, if_neg h2, lookupKey, ih]

/-- Appending cells under a fresh key makes exactly those cells its
value. -/
lemma lookup_appendCells_fresh (d : DataT) (key : Str)
    (h : memKey d key = false) (cs : List Cell) :
    lookupKey (appendCells d key cs) key = some cs := by
  induction d with
  | nil => simp [appendCells, lookupKey]
  | cons kv rest ih =>
    obtain ⟨k2, v⟩ := kv
    unfold memKey lookupKey at h
    by_cases h2 : k2 = key
    · rw [if_pos h2] at h
      simp at h
    · rw [if_neg h2] at h
      simp only [appendCells, if_neg h2, lookupKey, if_neg h2]
      exact ih h


/-- A key that is not in the dictionary looks up to `none`. -/
lemma lookup_eq_none_of_memKey_false {α : Type} {d : List (Str × α)} {k : Str}
    (h : memKey d k = false) : lookupKey d k = none := by
  unfold memKey at h
  cases hl : lookupKey d k with
  | none => rfl
  | some v => rw [hl] at h; exact absurd h (by simp)

/-- `Data.append` only touches the lower-cased target key. -/
lemma data_append_str_lookup_other (d : DataT) (p v k : Str)
    (h : ¬ lowerStr p = k) :
    lookupKey (Data.append d p (.str v)) k = lookupKey d k := by
  simp only [Data.append]
  by_cases hv : startsWith2 bsl '(' v = true ∧ endsWith2 bsl ')' v = true
  · rw [if_pos hv]
    exact lookup_appendCells_other d _ k h _
  · rw [if_neg hv]
    exact lookup_appendCells_other d _ k h _

/-- Appending a string value under a fresh lower-case key yields the same
entry as appending it into an empty `Data`. -/
lemma data_append_str_lookup_fresh (d : DataT) (p v : Str)
    (hp : lowerStr p = p) (h : memKey d p = false) :
    lookupKey (Data.append d p (.str v)) p
      = lookupKey (Data.append [] p (.str v)) p := by
  simp only [Data.append, hp]
  by_cases hv : startsWith2 bsl '(' v = true ∧ endsWith2 bsl ')' v = true
  · rw [if_pos hv, if_pos hv, lookup_appendCells_fresh d p h,
      lookup_appendCells_fresh [] p rfl]
  · rw [if_neg hv, if_neg hv, lookup_appendCells_fresh d p h,
      lookup_appendCells_fresh [] p rfl]

/-- After `Data.append` under a fresh lower-case key, the key is
present. -/
lemma data_append_str_memKey (d : DataT) (p v : Str)
    (hp : lowerStr p = p) (h : memKey d p = false) :
    memKey (Data.append d p (.str v)) p = true := by
  unfold memKey
  simp only [Data.append, hp]
  by_cases hv : startsWith2 bsl '(' v = true ∧ endsWith2 bsl ')' v = true
  · rw [if_pos hv, lookup_appendCells_fresh d p h]
    rfl
  · rw [if_neg hv, lookup_appendCells_fresh d p h]
    rfl

/-- One import step leaves every key other than the item name
unchanged. -/
lemma importEnvStep_lookup_other (reserved : List Str) (d : DataT)
    (kv : Str × Str) (k : Str) (hk : ¬ kv.1 = k) :
    lookupKey (importEnvStep reserved d kv) k = lookupKey d k := by
  unfold importEnvStep
  by_cases h1 : ¬ islowerPy kv.1 = true ∨ startsUnderscore kv.1 = true
  · rw [if_pos h1]
  · rw [if_neg h1]
    push_neg at h1
    by_cases h2 : memKey d kv.1 = true
    · rw [if_pos h2]
    · rw [if_neg h2]
      by_cases h3 : ¬ kv.2.isEmpty = true ∧ ¬ kv.1 ∈ reserved
      · rw [if_pos h3]
        apply data_append_str_lookup_other
        rw [lowerStr_eq_of_islower h1.1]
        exact hk
      · rw [if_neg h3]

/-- One import step never modifies a key that is already present. -/
lemma importEnvStep_lookup_of_mem (reserved : List Str) (d : DataT)
    (kv : Str × Str) (k : Str) (hk : memKey d k = true) :
    lookupKey (importEnvStep reserved d kv) k = lookupKey d k := by
  by_cases hke : kv.1 = k
  · unfold importEnvStep
    by_cases h1 : ¬ islowerPy kv.1 = true ∨ startsUnderscore kv.1 = true
    · rw [if_pos h1]
    · rw [if_neg h1]
      rw [if_pos (by rw [hke]; exact hk)]
  · exact importEnvStep_lookup_other reserved d kv k hke

/-- `import_environment` never overwrites or extends already-assigned
data. -/
lemma importEnv_preserve (reserved : List Str) :
    ∀ (env : List (Str × Str)) (d : DataT) (k : Str), memKey d k = true →
      lookupKey (importEnvironment env reserved d) k = lookupKey d k := by
  intro env
  induction env with
  | nil => intro d k _; rfl
  | cons kv rest ih =>
    intro d k hk
    have hstep := importEnvStep_lookup_of_mem reserved d kv k hk
    have hmem : memKey (importEnvStep reserved d kv) k = true := by
      unfold memKey
      rw [hstep]
      exact hk
    show lookupKey (importEnvironment rest reserved
        (importEnvStep reserved d kv)) k = lookupKey d k
    rw [ih _ _ hmem, hstep]

/-- Keys that name no environment item are untouched by the import. -/
lemma importEnv_untouched (reserved : List Str) :
    ∀ (env : List (Str × Str)) (d : DataT) (k : Str),
      (∀ p ∈ env, ¬ p.1 = k) →
      lookupKey (importEnvironment env reserved d) k = lookupKey d k := by
  intro env
  induction env with
  | nil => intro d k _; rfl
  | cons kv rest ih =>
    intro d k hall
    have hstep := importEnvStep_lookup_other reserved d kv k
      (hall kv (List.mem_cons_self kv rest))
    show lookupKey (importEnvironment rest reserved
        (importEnvStep reserved d kv)) k = lookupKey d k
    rw [ih _ _ (fun p hp => hall p (List.mem_cons_of_mem kv hp)), hstep]

/-- A qualifying environment item (lower-case name, no leading underscore,
name not yet in the data, non-empty value, not reserved) is imported with
exactly the entry `Data.append` produces from its value. -/
lemma importEnv_import (reserved : List Str) :
    ∀ (env : List (Str × Str)) (d : DataT) (k v : Str),
      (env.map Prod.fst).Nodup → (k, v) ∈ env → islowerPy k = true →
      startsUnderscore k = false → memKey d k = false →
      ¬ v.isEmpty = true → k ∉ reserved →
      lookupKey (importEnvironment env reserved d) k
        = lookupKey (Data.append [] k (.str v)) k := by
  intro env
  induction env with
  | nil => intro d k v _ hmem; exact absurd hmem (List.not_mem_nil _)
  | cons kv rest ih =>
    intro d k v hnd hmem hlow hund hfree hne hres
    have hnd2 : (rest.map Prod.fst).Nodup := (List.nodup_cons.mp hnd).2
    have hhd : kv.1 ∉ rest.map Prod.fst := (List.nodup_cons.mp hnd).1
    by_cases hhead : kv.1 = k
    · have hkv : kv = (k, v) := by
        rcases List.mem_cons.mp hmem with h | h
        · exact h.symm
        · refine absurd ?_ hhd
          rw [hhead]
          exact List.mem_map_of_mem Prod.fst h
      subst hkv
      have hklow : lowerStr k = k := lowerStr_eq_of_islower hlow
      have hstep : importEnvStep reserved d (k, v)
          = Data.append d k (.str v) := by
        unfold importEnvStep
        rw [if_neg (by
          push_neg
          exact ⟨hlow, by rw [hund]; exact fun hc => Bool.false_ne_true hc⟩)]
        rw [if_neg (by rw [hfree]; exact fun hc => Bool.false_ne_true hc)]
        rw [if_pos ⟨hne, hres⟩]
      have hmem2 : memKey (importEnvStep reserved d (k, v)) k = true := by
        rw [hstep]
        exact data_append_str_memKey d k v hklow hfree
      show lookupKey (importEnvironment rest reserved
          (importEnvStep reserved d (k, v))) k = _
      rw [importEnv_preserve reserved rest _ k hmem2, hstep]
      exact data_append_str_lookup_fresh d k v hklow hfree
    · have hmem2 : (k, v) ∈ rest := by
        rcases List.mem_cons.mp hmem with h | h
        · exact absurd (by rw [← h]) hhead
        · exact h
      have hstep := importEnvStep_lookup_other reserved d kv k hhead
      have hfree2 : memKey (importEnvStep reserved d kv) k = false := by
        unfold memKey
        rw [hstep]
        exact hfree
      exact ih _ k v hnd2 hmem2 hlow hund hfree2 hne hres

/-- An environment item whose name fails the name rules, whose value is
empty, or whose name is reserved, is not imported at all. -/
lemma importEnv_skip (reserved : List Str) :
    ∀ (env : List (Str × Str)) (d : DataT) (k v : Str),
      (env.map Prod.fst).Nodup → (k, v) ∈ env → memKey d k = false →
      (islowerPy k = false ∨ startsUnderscore k = true
        ∨ v.isEmpty = true ∨ k ∈ reserved) →
      lookupKey (importEnvironment env reserved d) k = none := by
  intro env
  induction env with
  | nil => intro d k v _ hmem; exact absurd hmem (List.not_mem_nil _)
  | cons kv rest ih =>
    intro d k v hnd hmem hfree hdisj
    have hnd2 : (rest.map Prod.fst).Nodup := (List.nodup_cons.mp hnd).2
    have hhd : kv.1 ∉ rest.map Prod.fst := (List.nodup_cons.mp hnd).1
    by_cases hhead : kv.1 = k
    · have hkv : kv = (k, v) := by
        rcases List.mem_cons.mp hmem with h | h
        · exact h.symm
        · refine absurd ?_ hhd
          rw [hhead]
          exact List.mem_map_of_mem Prod.fst h
      subst hkv
      have hstep : importEnvStep reserved d (k, v) = d := by
        unfold importEnvStep
        by_cases h1 : ¬ islowerPy k = true ∨ startsUnderscore k = true
        · rw [if_pos h1]
        · rw [if_neg h1]
          push_neg at h1
          rw [if_neg (by rw [hfree]; exact fun hc => Bool.false_ne_true hc)]
          rcases hdisj with hl | hu | he | hr
          · exact absurd h1.1 (by rw [hl]; exact fun hc => Bool.false_ne_true hc)
          · exact absurd hu h1.2
          · rw [if_neg (fun hc => hc.1 he)]
          · rw [if_neg (fun hc => hc.2 hr)]
      show lookupKey (importEnvironment rest reserved
          (importEnvStep reserved d (k, v))) k = none
      rw [hstep]
      rw [importEnv_untouched reserved rest d k
        (fun p hp he => hhd (by
          show (k, v).1 ∈ List.map Prod.fst rest
          rw [show (k, v).1 = k from rfl, ← he]
          exact List.mem_map_of_mem Prod.fst hp))]
      exact lookup_eq_none_of_memKey_false hfree
    · have hmem2 : (k, v) ∈ rest := by
        rcases List.mem_cons.mp hmem with h | h
        · exact absurd (by rw [← h]) hhead
        · exact h
      have hstep := importEnvStep_lookup_other reserved d kv k hhead
      have hfree2 : memKey (importEnvStep reserved d kv) k = false := by
        unfold memKey
        rw [hstep]
        exact hfree
      exact ih _ k v hnd2 hmem2 hfree2 hdisj

/-- C8 counterexample: the environment variable `x` with an empty value
satisfies every name rule of the claim and is not already assigned, yet it
is not imported — Python `if data` filters falsy (empty) values, refuting
the claimed unconditional append. -/
theorem claim8_counterexample :
    importEnvironment [((("x").data), ([] : Str))] [] [] = []
      ∧ ([] : DataT) ≠ [((("x").data), [Cell.s []])] :=
  ⟨rfl, by decide⟩

/-- C8 (amended): over any environment with distinct names, (1) already
assigned keys keep their values untouched, (2) an item whose name is
entirely lower-case without a leading underscore, not yet a data key and
not reserved, and whose value is non-empty, ends up with exactly the entry
that `Data.append` produces from the value (a single value, except that a
literal of the form backslash-parenthesis is shell-word-split), and (3) an
item failing the name rules, with an empty value or a reserved name,
leaves its name absent from the resulting data. -/
theorem claim8_env_import (env : List (Str × Str)) (reserved : List Str)
    (d0 : DataT) (hnd : (env.map Prod.fst).Nodup) :
    (∀ k, memKey d0 k = true →
        lookupKey (importEnvironment env reserved d0) k = lookupKey d0 k)
    ∧ (∀ k v, (k, v) ∈ env → islowerPy k = true →
        startsUnderscore k = false → memKey d0 k = false →
        ¬ v.isEmpty = true → k ∉ reserved →
        lookupKey (importEnvironment env reserved d0) k
          = lookupKey (Data.append [] k (.str v)) k)
    ∧ (∀ k v, (k, v) ∈ env → memKey d0 k = false →
        (islowerPy k = false ∨ startsUnderscore k = true
          ∨ v.isEmpty = true ∨ k ∈ reserved) →
        lookupKey (importEnvironment env reserved d0) k = none) :=
  ⟨fun k hk => importEnv_preserve reserved env d0 k hk,
   fun k v h1 h2 h3 h4 h5 h6 =>
     importEnv_import reserved env d0 k v hnd h1 h2 h3 h4 h5 h6,
   fun k v h1 h2 h3 => importEnv_skip reserved env d0 k v hnd h1 h2 h3⟩

/-- C8 witness: the characterization applied to the one-item environment
`ab=v` with no reserved names and empty data. -/
theorem claim8_witness :
    ((([((("ab").data), (("v").data))] : List (Str × Str)).map
        Prod.fst).Nodup)
    ∧ ((∀ k, memKey ([] : DataT) k = true →
          lookupKey (importEnvironment [((("ab").data), (("v").data))] [] [])
            k = lookupKey ([] : DataT) k)
      ∧ (∀ k v, (k, v) ∈ ([((("ab").data), (("v").data))] :
            List (Str × Str)) → islowerPy k = true →
          startsUnderscore k = false → memKey ([] : DataT) k = false →
          ¬ v.isEmpty = true → k ∉ ([] : List Str) →
          lookupKey (importEnvironment [((("ab").data), (("v").data))] [] [])
            k = lookupKey (Data.append [] k (.str v)) k)
      ∧ (∀ k v, (k, v) ∈ ([((("ab").data), (("v").data))] :
            List (Str × Str)) → memKey ([] : DataT) k = false →
          (islowerPy k = false ∨ startsUnderscore k = true
            ∨ v.isEmpty = true ∨ k ∈ ([] : List Str)) →
          lookupKey (importEnvironment [((("ab").data), (("v").data))] [] [])
            k = none)) :=
  ⟨by decide, claim8_env_import [((("ab").data), (("v").data))] [] []
    (by decide)⟩


/-! ### Logger (snippet.py 51-53, 93-137, 1137-1139, 1233-1238, 1308-1312) -/

/-- The ANSI escape character. -/
def esc : Char := Char.ofNat 27

/-- `colorama.Fore.RED`. -/
def ForeRED : Str := esc :: ("[31m").data

/-- `colorama.Style.RESET_ALL`. -/
def StyleRESET : Str := esc :: ("[0m").data

/-- `colorize` (snippet.py 51-53): wrap a string in a color code and the
reset code. -/
def colorize (string : Str) (color : Str) : Str :=
  color ++ string ++ StyleRESET

/-- `logging.DEBUG`. -/
def loggingDEBUG : Nat := 10

/-- `logging.INFO`. -/
def loggingINFO : Nat := 20

/-- `logging.WARN`. -/
def loggingWARN : Nat := 30

/-- The observable state of the `Logger` wrapper: the configured level
(set identically on the logger and its stderr stream handler). -/
structure Logger where
  level : Nat

/-- The stderr lines emitted for one record: Python logging emits a record
exactly when its severity is at least the configured level. -/
def Logger.output (lg : Logger) (severity : Nat) (message : Str) :
    List Str :=
  if lg.level ≤ severity then [message] else []

/-- `self.logger.info(...)`: an info-severity record. -/
def Logger.logInfo (lg : Logger) (message : Str) : List Str :=
  lg.output loggingINFO message

/-- `Logger.error` (snippet.py 134-135): it tags the message with a red
"ERROR: " and hands it to `self.logger.info`, an info-severity record. -/
def Logger.error (lg : Logger) (message : Str) : List Str :=
  lg.logInfo (colorize (("ERROR: ").data) ForeRED ++ message)

/-- The level chosen by `main` (snippet.py 1233-1238): DEBUG under
`--debug`, INFO under `--verbose`, otherwise WARN. -/
def mainLogLevel (debug verbose : Bool) : Nat :=
  if debug then loggingDEBUG
  else if verbose then loggingINFO
  else loggingWARN

/-- The `except` branch of `main` (snippet.py 1308-1312): log the error
and exit with status 1. -/
def mainFatal (lg : Logger) (e : Str) : List Str × Nat :=
  (lg.error e, 1)

/-- C9: `Logger.error` forwards every message through the info-severity
path, so the "ERROR:"-tagged line reaches stderr exactly when the
configured level admits info records; in default (quiet) mode the level is
WARN, so a fatal error prints nothing yet the process exits with status
1. -/
theorem claim9_error_info_severity (lvl : Nat) (msg : Str) :
    (Logger.error ⟨lvl⟩ msg
      = Logger.logInfo ⟨lvl⟩ (colorize (("ERROR: ").data) ForeRED ++ msg))
    ∧ (Logger.error ⟨lvl⟩ msg ≠ [] ↔ lvl ≤ loggingINFO)
    ∧ (mainFatal ⟨mainLogLevel false false⟩ msg = ([], 1)) := by
  refine ⟨rfl, ?_, ?_⟩
  · unfold Logger.error Logger.logInfo Logger.output
    by_cases h : lvl ≤ loggingINFO
    · rw [if_pos h]
      simp [h]
    · rw [if_neg h]
      simp [h]
  · unfold mainFatal Logger.error Logger.logInfo Logger.output
    rw [if_neg (by unfold mainLogLevel loggingINFO loggingWARN; simp)]


end Snippet
